import Mathlib

/-!
Verification of the PocketSDR GNSS signal-channel engine (Python sources
`sdr_func.py`, `sdr_ch.py`, `sdr_nav.py`, `sdr_fec.py`, `sdr_nb_ldpc.py`)
against its natural-language specification.

The Python code is shallowly embedded: numpy arrays become `List`s, Python
floats become `ℚ` (exact arithmetic standing in for IEEE doubles; the
transcendental primitives `log10`, `atan`, `atan2` and the numeric constant π
are carried as explicit function parameters, since the properties checked here
do not depend on their values), complex numbers become pairs `ℚ × ℚ`, and
Python integers become `ℤ`/`ℕ`.  Functions of the repository that live in
external binary libraries (libfec, librtk, libsdr) are modelled from the
specification; each such definition carries a doc comment starting
`Modelled from the spec:`.
-/

namespace PocketSDR

/-! ## Basic utilities from `sdr_func.py` -/

/-- Embedding of `sdr_func.add_buff(buff, item)`:
`buff[:-1], buff[-1] = buff[1:], item` — shift the buffer contents left by
one position, dropping the oldest entry, and store `item` at the last
position.  (For an empty buffer the Python original raises `IndexError` on
the `buff[-1]` store, so the embedding is meaningful only for nonempty
buffers.) -/
def add_buff {α : Type} (buff : List α) (item : α) : List α :=
  buff.drop 1 ++ [item]

/-- Fuel-driven helper computing the parity of the binary representation. -/
def xorBitsAux : Nat → Nat → Nat
  | 0, _ => 0
  | fuel + 1, n => if n = 0 then 0 else (n % 2 + xorBitsAux fuel (n / 2)) % 2

/-- Embedding of `sdr_func.xor_bits(X)`: `bin(X).count('1') % 2`, the parity
of the number of 1-bits of `X`. -/
def xor_bits (n : Nat) : Nat := xorBitsAux n n

/-- Embedding of `sdr_func.pack_bits(data, nz)`: prepend `nz` zero bits (when
`nz > 0`), then pack bits MSB-first into bytes; the byte array has
`(N + 7) / 8` entries. -/
def pack_bits (data : List Nat) (nz : Nat := 0) : List Nat :=
  let d := List.replicate nz 0 ++ data
  let nbytes := (d.length + 7) / 8
  (List.range nbytes).map (fun k =>
    (List.range 8).foldl (fun acc j =>
      if 8 * k + j < d.length then
        acc ||| ((d.getD (8 * k + j) 0) <<< (7 - j))
      else acc) 0)

/-! ## Claim C9: ring-buffer append semantics -/

/-! ## Claim C8: frame synchronization by two preambles (`sdr_nav.sync_frame`) -/

/-- Embedding of `sdr_nav.sync_frame(ch, preamb, bits)` (the log side effects
are irrelevant to the result and are dropped).  `np.all(bits[:N] == preamb)`
is elementwise equality of the length-`N` head with the preamble, i.e. list
equality when `N ≤ len(bits)`; `np.all(bits[-N:] != preamb)` is elementwise
difference.  Returns 0 (normal), 1 (reversed) or -1 (no sync). -/
def sync_frame (preamb bits : List Nat) : Int :=
  let N := preamb.length
  let head := bits.take N
  let tail := bits.drop (bits.length - N)
  if head = preamb ∧ tail = preamb then 0
  else if (((head.zip preamb).all fun p => p.1 != p.2) ∧
           ((tail.zip preamb).all fun p => p.1 != p.2)) then 1
  else -1

/-- No list elementwise-differs from itself (nonempty case). -/
theorem zip_self_not_all_ne {l : List Nat} (hl : l ≠ []) :
    ¬((l.zip l).all fun p => p.1 != p.2) = true := by
  cases l with
  | nil => exact absurd rfl hl
  | cons a t => simp [List.all_cons]

/-- C8: `sync_frame` reports normal polarity (0) exactly when the first `N`
and the last `N` entries of the window both equal the preamble in every
position, reversed polarity (1) exactly when the first `N` and the last `N`
entries both differ from the preamble in every position, and no
synchronization (-1) in every other case (preamble nonempty and window at
least preamble-sized, as in every call site). -/
theorem sync_frame_characterization (preamb bits : List Nat)
    (hp : preamb ≠ []) (hlen : preamb.length ≤ bits.length) :
    (sync_frame preamb bits = 0 ↔
      (bits.take preamb.length = preamb ∧
       bits.drop (bits.length - preamb.length) = preamb)) ∧
    (sync_frame preamb bits = 1 ↔
      ((((bits.take preamb.length).zip preamb).all fun p => p.1 != p.2) ∧
       (((bits.drop (bits.length - preamb.length)).zip preamb).all
         fun p => p.1 != p.2))) ∧
    (sync_frame preamb bits = -1 ↔
      (¬(bits.take preamb.length = preamb ∧
         bits.drop (bits.length - preamb.length) = preamb) ∧
       ¬((((bits.take preamb.length).zip preamb).all fun p => p.1 != p.2) ∧
         (((bits.drop (bits.length - preamb.length)).zip preamb).all
           fun p => p.1 != p.2)))) := by
  unfold sync_frame
  dsimp only
  split_ifs with h1 h2
  · refine ⟨by simp [h1], ?_, by simp [h1]⟩
    constructor
    · intro h; exact absurd h (by decide)
    · intro hc
      have hall := hc.1
      rw [h1.1] at hall
      exact absurd hall (zip_self_not_all_ne hp)
  · refine ⟨by simp [h1], by simp [h2], ?_⟩
    constructor
    · intro h; exact absurd h (by decide)
    · intro hc; exact absurd h2 hc.2
  · refine ⟨by simp [h1], ⟨fun h => absurd h (by decide), fun hc => absurd hc h2⟩, ?_⟩
    exact ⟨fun _ => ⟨h1, h2⟩, fun _ => rfl⟩

/-- Witness for C8 at a concrete preamble and window. -/
theorem sync_frame_characterization_witness :
    (sync_frame [1, 0, 1] [1, 0, 1, 7, 1, 0, 1] = 0 ↔
      (([1, 0, 1, 7, 1, 0, 1] : List Nat).take 3 = [1, 0, 1] ∧
       ([1, 0, 1, 7, 1, 0, 1] : List Nat).drop 4 = [1, 0, 1])) ∧
    (sync_frame [1, 0, 1] [1, 0, 1, 7, 1, 0, 1] = 1 ↔
      (((([1, 0, 1, 7, 1, 0, 1] : List Nat).take 3).zip [1, 0, 1]).all
          (fun p => p.1 != p.2) ∧
       ((([1, 0, 1, 7, 1, 0, 1] : List Nat).drop 4).zip [1, 0, 1]).all
          (fun p => p.1 != p.2))) ∧
    (sync_frame [1, 0, 1] [1, 0, 1, 7, 1, 0, 1] = -1 ↔
      (¬(([1, 0, 1, 7, 1, 0, 1] : List Nat).take 3 = [1, 0, 1] ∧
         ([1, 0, 1, 7, 1, 0, 1] : List Nat).drop 4 = [1, 0, 1]) ∧
       ¬(((([1, 0, 1, 7, 1, 0, 1] : List Nat).take 3).zip [1, 0, 1]).all
            (fun p => p.1 != p.2) ∧
         ((([1, 0, 1, 7, 1, 0, 1] : List Nat).drop 4).zip [1, 0, 1]).all
            (fun p => p.1 != p.2)))) :=
  sync_frame_characterization [1, 0, 1] [1, 0, 1, 7, 1, 0, 1]
    (by decide) (by decide)

/-! ## NB-LDPC decoder (`sdr_nb_ldpc.py`, claim C1)

The Python decoder stores log-likelihood ratios in `float32`; the embedding
uses exact rationals.  The single non-rational constant `-log(ERR_PROB)` is
represented by a fixed positive rational; none of the properties proved below
depend on its value (only on the control structure of the decoder). -/

/-- `N_GF` of `sdr_nb_ldpc.py`. -/
def N_GF : Nat := 6

/-- `Q_GF = 1 << N_GF` of `sdr_nb_ldpc.py`. -/
def Q_GF : Nat := 64

/-- `MAX_ITER` of `sdr_nb_ldpc.py`. -/
def MAX_ITER : Nat := 15

/-- `NM_EMS` of `sdr_nb_ldpc.py`. -/
def NM_EMS : Nat := 4

/-!
Every log-likelihood value the decoder ever stores is the constant
`-log(ERR_PROB)` times a natural number: `init_LLR` initializes each entry to
that constant times a bit count, and every later operation on the messages is
an addition, a subtraction of the minimum, a permutation, or a comparison —
all of which stay inside the integer span of the constant.  The embedding
therefore represents each LLR by its integer coordinate in units of
`-log(ERR_PROB)`; since the constant is positive, all comparisons, minima and
argmins agree with the Python float values. -/

/-- `GF_VEC` table of `sdr_nb_ldpc.py` (power -> vector). -/
def GF_VEC : List Nat :=
  [ 1,  2,  4,  8, 16, 32,  3,  6, 12, 24, 48, 35,  5, 10, 20, 40,
   19, 38, 15, 30, 60, 59, 53, 41, 17, 34,  7, 14, 28, 56, 51, 37,
    9, 18, 36, 11, 22, 44, 27, 54, 47, 29, 58, 55, 45, 25, 50, 39,
   13, 26, 52, 43, 21, 42, 23, 46, 31, 62, 63, 61, 57, 49, 33]

/-- `GF_POW` table of `sdr_nb_ldpc.py` (vector -> power). -/
def GF_POW : List Nat :=
  [ 0,  0,  1,  6,  2, 12,  7, 26,  3, 32, 13, 35,  8, 48, 27, 18,
    4, 24, 33, 16, 14, 52, 36, 54,  9, 45, 49, 38, 28, 41, 19, 56,
    5, 62, 25, 11, 34, 31, 17, 47, 15, 23, 53, 51, 37, 44, 55, 40,
   10, 61, 46, 30, 50, 22, 39, 43, 29, 60, 42, 21, 20, 59, 57, 58]

/-- The `GF_MUL` multiplication table built by `sdr_nb_ldpc.init_table`:
zero when either factor is zero (those cells of the numpy table are never
written), else `GF_VEC[(GF_POW[i] + GF_POW[j]) % (Q_GF - 1)]`. -/
def gfMul (i j : Nat) : Nat :=
  if i = 0 ∨ j = 0 then 0
  else GF_VEC.getD ((GF_POW.getD i 0 + GF_POW.getD j 0) % (Q_GF - 1)) 0

/-- Fuel-driven popcount helper. -/
def popCountAux : Nat → Nat → Nat
  | 0, _ => 0
  | fuel + 1, n => if n = 0 then 0 else n % 2 + popCountAux fuel (n / 2)

/-- `bin(x).count('1')`: number of 1-bits. -/
def bitCount (n : Nat) : Nat := popCountAux n n

/-- Embedding of `sdr_nb_ldpc.bin2gf(syms)`: group the symbol bits in blocks
of `N_GF`, MSB first. -/
def bin2gf (syms : List Nat) : List Nat :=
  (List.range (syms.length / N_GF)).map fun i =>
    (List.range N_GF).foldl (fun c j => 2 * c + syms.getD (i * N_GF + j) 0) 0

/-- Embedding of `sdr_nb_ldpc.gf2bin(code)`: expand each GF(64) symbol into
its `N_GF` bits, MSB first. -/
def gf2bin (code : List Nat) : List Nat :=
  code.bind fun c => (List.range N_GF).map fun j => (c >>> (N_GF - 1 - j)) &&& 1

/-- Embedding of `sdr_nb_ldpc.graph_edge(H_idx, H_ele)`: the Tanner-graph
edge list; each edge is `(check-node index, variable-node index, H element)`,
enumerated row by row as in the Python double loop. -/
def graph_edge (H_idx H_ele : List (List Nat)) : List (Nat × Nat × Nat) :=
  (List.range H_idx.length).bind fun i =>
    (List.range (H_idx.getD i []).length).map fun j =>
      (i, (H_idx.getD i []).getD j 0, (H_ele.getD i []).getD j 0)

/-- Embedding of `sdr_nb_ldpc.init_LLR(code, err_prob)`:
`L[i][j] = -log(err_prob) * popcount(code[i] ^ j)`. -/
def init_LLR (code : List Nat) : List (List ℤ) :=
  code.map fun c =>
    (List.range Q_GF).map fun j => (bitCount (c ^^^ j) : ℤ)

/-- Embedding of `sdr_nb_ldpc.check_parity(ie, je, he, m, code)`: each check
node accumulates `GF_MUL[h][code[v]]` by XOR over its edges; all syndromes
must be zero. -/
def check_parity (edges : List (Nat × Nat × Nat)) (m : Nat)
    (code : List Nat) : Bool :=
  (List.range m).all fun i =>
    (edges.foldl (fun acc e =>
      if e.1 = i then acc ^^^ gfMul e.2.2 (code.getD e.2.1 0) else acc) 0) = 0

/-- Embedding of `sdr_nb_ldpc.permute_V2C(h, V2C)`:
`V2C_p[GF_MUL[h][i]] = V2C[i]`. -/
def permute_V2C (h : Nat) (V2C : List ℤ) : List ℤ :=
  (List.range Q_GF).foldl (fun acc i => acc.set (gfMul h i) (V2C.getD i 0))
    (List.replicate Q_GF 0)

/-- Embedding of `sdr_nb_ldpc.permute_C2V(h, C2V)`:
`C2V_p[i] = C2V[GF_MUL[h][i]]`. -/
def permute_C2V (h : Nat) (C2V : List ℤ) : List ℤ :=
  (List.range Q_GF).map fun i => C2V.getD (gfMul h i) 0

/-- Insert index `i` into an index list sorted by the values of `L`
(strictly-less insertion, so equal values keep earlier-inserted indices
first). -/
def insertIdx (L : List ℤ) (i : Nat) : List Nat → List Nat
  | [] => [i]
  | j :: rest =>
    if L.getD i 0 < L.getD j 0 then i :: j :: rest else j :: insertIdx L i rest

/-- Index sort standing in for `np.argsort` (`np.argsort` uses an unstable
quicksort whose tie order is unspecified; the decoder properties proved here
do not depend on the tie order). -/
def argsort (L : List ℤ) : List Nat :=
  (List.range L.length).foldl (fun acc i => insertIdx L i acc) []

/-- First index of the minimum value, as `np.argmin`. -/
def argmin (L : List ℤ) : Nat :=
  (argsort L).headD 0

/-- Minimum of a value list, as `np.min` on a nonempty array. -/
def listMin (L : List ℤ) : ℤ :=
  L.foldl min (L.headD 0)

/-- `Ls -= np.min(Ls)`: shift a message so its minimum becomes zero. -/
def normMsg (L : List ℤ) : List ℤ :=
  L.map fun x => x - listMin L

/-- Embedding of `sdr_nb_ldpc.ext_min_sum(L1, L2)`: truncated (extended
min-sum) combination of two LLR messages, keeping the `NM_EMS` strongest
candidates of each. -/
def ext_min_sum (L1 L2 : List ℤ) : List ℤ :=
  if L1 = [] then L2
  else
    let idx1 := argsort L1
    let idx2 := argsort L2
    let maxL := L1.getD (idx1.getD (NM_EMS - 1) 0) 0 +
                L2.getD (idx2.getD (NM_EMS - 1) 0) 0
    (idx1.take NM_EMS).foldl (fun Ls i =>
      (idx2.take NM_EMS).foldl (fun Ls j =>
        if L1.getD i 0 + L2.getD j 0 < Ls.getD (i ^^^ j) 0 then
          Ls.set (i ^^^ j) (L1.getD i 0 + L2.getD j 0)
        else Ls) Ls)
      (List.replicate Q_GF maxL)

/-- State of the belief-propagation iteration of `decode_NB_LDPC`. -/
structure LdpcState where
  L : List (List ℤ)
  V2C : List (List ℤ)
  C2V : List (List ℤ)
  code : List Nat

/-- One iteration body of `decode_NB_LDPC` (check-node update, variable-node
update, LLR/code update), following the statement order of the Python loop:
the check-node update reads the previous `V2C`, the variable-node and LLR
updates read the newly written `C2V`. -/
def ldpcStep (edges : List (Nat × Nat × Nat)) (n : Nat)
    (st : LdpcState) : LdpcState :=
  let ne := edges.length
  let C2V := (List.range ne).map fun i =>
    let e := edges.getD i (0, 0, 0)
    let Ls := (List.range ne).foldl (fun Ls j =>
      if (edges.getD j (0, 0, 0)).1 = e.1 ∧ j ≠ i then
        ext_min_sum Ls (st.V2C.getD j [])
      else Ls) []
    permute_C2V e.2.2 (normMsg Ls)
  let V2C := (List.range ne).map fun i =>
    let e := edges.getD i (0, 0, 0)
    let Ls := (List.range ne).foldl (fun Ls j =>
      if (edges.getD j (0, 0, 0)).2.1 = e.2.1 ∧ j ≠ i then
        List.zipWith (· + ·) Ls (C2V.getD j [])
      else Ls) (st.L.getD e.2.1 [])
    permute_V2C e.2.2 (normMsg Ls)
  let L := (List.range n).map fun i =>
    normMsg ((List.range ne).foldl (fun Li j =>
      if i = (edges.getD j (0, 0, 0)).2.1 then
        List.zipWith (· + ·) Li (C2V.getD j [])
      else Li) (st.L.getD i []))
  let code := (List.range n).map fun i => argmin (L.getD i [])
  { L := L, V2C := V2C, C2V := C2V, code := code }

/-- Number of differing positions, as `np.count_nonzero(a ^ b)` for arrays
of equal length. -/
def countDiffBits (a b : List Nat) : ℤ :=
  ((a.zip b).countP fun p => p.1 ≠ p.2 : Nat)

/-- The iterate-until-parity-satisfied-or-fuel-exhausted loop of
`decode_NB_LDPC`: on parity success return the decoded payload bits and the
bit-difference count against the raw input; when the fuel (`MAX_ITER`) runs
out return the failure sentinel -1. -/
def ldpcLoop (edges : List (Nat × Nat × Nat)) (m n : Nat) (syms : List Nat) :
    Nat → LdpcState → List Nat × ℤ
  | 0, st => ((gf2bin st.code).take (m * N_GF), -1)
  | fuel + 1, st =>
    if check_parity edges m st.code then
      let syms_dec := gf2bin st.code
      (syms_dec.take (m * N_GF), countDiffBits syms_dec syms)
    else
      ldpcLoop edges m n syms fuel (ldpcStep edges n st)

/-- Embedding of `sdr_nb_ldpc.decode_NB_LDPC(H_idx, H_ele, m, n, syms)`. -/
def decode_NB_LDPC (H_idx H_ele : List (List Nat)) (m n : Nat)
    (syms : List Nat) : List Nat × ℤ :=
  let code := bin2gf syms
  let edges := graph_edge H_idx H_ele
  let L := init_LLR code
  let V2C := edges.map fun e => permute_V2C e.2.2 (L.getD e.2.1 [])
  let C2V := edges.map fun _ => List.replicate Q_GF (0 : ℤ)
  ldpcLoop edges m n syms MAX_ITER
    { L := L, V2C := V2C, C2V := C2V, code := code }

/-- Structure of every result of the belief-propagation loop: either the
fuel ran out and the second component is the failure sentinel -1, or the
returned payload comes from a symbol vector that satisfies the parity check
and the second component counts the bit positions where the full decoded
codeword differs from the raw input. -/
theorem ldpcLoop_contract (edges : List (Nat × Nat × Nat)) (m n : Nat)
    (syms : List Nat) :
    ∀ (fuel : Nat) (st : LdpcState),
      ((ldpcLoop edges m n syms fuel st).2 = -1 ∧
        ∃ code, (ldpcLoop edges m n syms fuel st).1 =
          (gf2bin code).take (m * N_GF)) ∨
      (∃ code,
        check_parity edges m code = true ∧
        (ldpcLoop edges m n syms fuel st).1 = (gf2bin code).take (m * N_GF) ∧
        (ldpcLoop edges m n syms fuel st).2 = countDiffBits (gf2bin code) syms ∧
        0 ≤ (ldpcLoop edges m n syms fuel st).2) := by
  intro fuel
  induction fuel with
  | zero => exact fun st => Or.inl ⟨rfl, st.code, rfl⟩
  | succ k ih =>
    intro st
    by_cases h : check_parity edges m st.code
    · refine Or.inr ⟨st.code, h, ?_, ?_, ?_⟩
      · simp [ldpcLoop, h]
      · simp [ldpcLoop, h]
      · simp only [ldpcLoop, h, if_pos]
        exact Int.natCast_nonneg _
    · have : ldpcLoop edges m n syms (k + 1) st =
          ldpcLoop edges m n syms k (ldpcStep edges n st) := by
        simp [ldpcLoop, h]
      rw [this]
      exact ih (ldpcStep edges n st)

/-- C1 (amended): for every well-formed parity-check structure
(`H_idx`/`H_ele` rows describing checks with at least two edges, variable
indices below `n`, nonzero GF(64) elements) and binary input of `6·n`
symbols, `decode_NB_LDPC` either stops within the `MAX_ITER` iteration cap
with the failure sentinel -1 as its second result, or terminates early on
success, in which case the decoded symbol vector satisfies the code's own
parity check, the first result is the first `m·6` bits of that vector, and
the returned count equals the number of bit positions where the full decoded
codeword (not merely the returned payload prefix) differs from the raw input
symbols. -/
theorem decode_NB_LDPC_contract (H_idx H_ele : List (List Nat)) (m n : Nat)
    (syms : List Nat)
    (hlen : syms.length = N_GF * n)
    (hbin : ∀ s ∈ syms, s < 2)
    (hrows : H_idx.length = m)
    (hdeg : ∀ row ∈ H_idx, 2 ≤ row.length)
    (hidx : ∀ row ∈ H_idx, ∀ j ∈ row, j < n)
    (hele : ∀ row ∈ H_ele, ∀ h ∈ row, 0 < h ∧ h < Q_GF) :
    ((decode_NB_LDPC H_idx H_ele m n syms).2 = -1 ∧
      ∃ code, (decode_NB_LDPC H_idx H_ele m n syms).1 =
        (gf2bin code).take (m * N_GF)) ∨
    (∃ code,
      check_parity (graph_edge H_idx H_ele) m code = true ∧
      (decode_NB_LDPC H_idx H_ele m n syms).1 = (gf2bin code).take (m * N_GF) ∧
      (decode_NB_LDPC H_idx H_ele m n syms).2 =
        countDiffBits (gf2bin code) syms ∧
      0 ≤ (decode_NB_LDPC H_idx H_ele m n syms).2) :=
  ldpcLoop_contract (graph_edge H_idx H_ele) m n syms MAX_ITER _

set_option maxRecDepth 10000 in
/-- Witness for C1 at a concrete single-check code over two variable nodes
and an all-zero symbol vector. -/
theorem decode_NB_LDPC_contract_witness :
    ((decode_NB_LDPC [[0, 1]] [[1, 1]] 1 2 (List.replicate 12 0)).2 = -1 ∧
      ∃ code, (decode_NB_LDPC [[0, 1]] [[1, 1]] 1 2 (List.replicate 12 0)).1 =
        (gf2bin code).take (1 * N_GF)) ∨
    (∃ code,
      check_parity (graph_edge [[0, 1]] [[1, 1]]) 1 code = true ∧
      (decode_NB_LDPC [[0, 1]] [[1, 1]] 1 2 (List.replicate 12 0)).1 =
        (gf2bin code).take (1 * N_GF) ∧
      (decode_NB_LDPC [[0, 1]] [[1, 1]] 1 2 (List.replicate 12 0)).2 =
        countDiffBits (gf2bin code) (List.replicate 12 0) ∧
      0 ≤ (decode_NB_LDPC [[0, 1]] [[1, 1]] 1 2 (List.replicate 12 0)).2) :=
  decode_NB_LDPC_contract [[0, 1]] [[1, 1]] 1 2 (List.replicate 12 0)
    (by decide) (by decide) (by decide) (by decide) (by decide) (by decide)

set_option maxRecDepth 10000 in
/-- C1 counterexample to the claim as stated: with the single parity check
`c₀ = c₁` over GF(64) and input bits `000000 000001`, the decoder converges
to the all-zero codeword and returns payload `000000` with count 1; the
returned payload bits agree with the corresponding raw input bits in every
position (0 differences), so the returned count does not equal the number of
bit positions where the returned bits differ from the raw input. -/
theorem decode_NB_LDPC_count_counterexample :
    (decode_NB_LDPC [[0, 1]] [[1, 1]] 1 2
        [0, 0, 0, 0, 0, 0, 0, 0, 0, 0, 0, 1]).2 = 1 ∧
    countDiffBits
        (decode_NB_LDPC [[0, 1]] [[1, 1]] 1 2
          [0, 0, 0, 0, 0, 0, 0, 0, 0, 0, 0, 1]).1
        [0, 0, 0, 0, 0, 0, 0, 0, 0, 0, 0, 1] = 0 ∧
    (decode_NB_LDPC [[0, 1]] [[1, 1]] 1 2
        [0, 0, 0, 0, 0, 0, 0, 0, 0, 0, 0, 1]).2 ≠
      countDiffBits
        (decode_NB_LDPC [[0, 1]] [[1, 1]] 1 2
          [0, 0, 0, 0, 0, 0, 0, 0, 0, 0, 0, 1]).1
        [0, 0, 0, 0, 0, 0, 0, 0, 0, 0, 0, 1] := by
  decide

/-! ## Forward error correction (`sdr_fec.py`, claim C6)

`encode_conv` is pure Python and is embedded from the source.  `decode_conv`,
`encode_rs` and `decode_rs` call into the external binary library libfec
(a libfec clone is bundled with the repository but its C sources are not part
of the Python core under verification), so they are modelled from the
specification. -/

/-- `POLY_CONV` of `sdr_fec.py`: convolution code polynomials (G1, G2). -/
def POLY_CONV : Nat × Nat := (0x4F, 0x6D)

/-- The register recursion of `sdr_fec.encode_conv`: shift each input bit
into `R` and emit the two parity bits `xor_bits(R & G1)`, `xor_bits(R & G2)`. -/
def conv_steps (R : Nat) : List Nat → List Nat
  | [] => []
  | b :: rest =>
    let R2 := 2 * R + (b &&& 1)
    xor_bits (R2 &&& POLY_CONV.1) :: xor_bits (R2 &&& POLY_CONV.2) ::
      conv_steps R2 rest

/-- Embedding of `sdr_fec.encode_conv(data)` (K=7, R=1/2): encode the data
bits followed by 6 zero flush bits; an empty input is a length error and
returns the empty array. -/
def encode_conv (data : List Nat) : List Nat :=
  if data = [] then [] else conv_steps 0 (data ++ List.replicate 6 0)

/-- Branch metric of a candidate data word against the received soft symbols
(0 = strongest zero, 255 = strongest one): the accumulated distance
`sym` / `255 - sym` per expected 0/1 coded bit, as accumulated by the libfec
Viterbi branch metrics. -/
def conv_metric (r cand : List Nat) : Nat :=
  (((encode_conv cand).zip r).map
    (fun p => if p.1 = 1 then 255 - p.2 else p.2)).sum

/-- All bit lists of length `n`. -/
def allBitLists : Nat → List (List Nat)
  | 0 => [[]]
  | n + 1 => ((allBitLists n).map (0 :: ·)) ++ ((allBitLists n).map (1 :: ·))

/-- First element minimizing `f` (ties keep the earliest element). -/
def argminBy {α : Type} (f : α → Nat) : List α → Option α
  | [] => none
  | x :: rest =>
    match argminBy f rest with
    | none => some x
    | some b => if f x ≤ f b then some x else some b

/-- Modelled from the spec: `sdr_fec.decode_conv(data)` calls the libfec
rate-1/2, constraint-length-7 Viterbi decoder (`update_viterbi27_blk` over
`N + 6` symbol pairs followed by a chainback from the zero state), which
computes the data word whose terminated encoding minimizes the accumulated
branch metric over the received 8-bit soft symbols.  The model expresses this
as the first metric-minimizing data word of length `N = len(data)/2 - 6`;
`N <= 0` is a length error and returns the empty array. -/
def decode_conv (data : List Nat) : List Nat :=
  let N := data.length / 2 - 6
  if N = 0 then []
  else (argminBy (conv_metric (data.take ((N + 6) * 2))) (allBitLists N)).getD []

/-! Supporting lemmas for the convolutional round trip. -/

theorem xorBitsAux_zero (fuel : Nat) : xorBitsAux fuel 0 = 0 := by
  cases fuel <;> simp [xorBitsAux]

theorem xorBitsAux_congr :
    ∀ f1 f2 n, n ≤ f1 → n ≤ f2 → xorBitsAux f1 n = xorBitsAux f2 n := by
  intro f1
  induction f1 with
  | zero =>
    intro f2 n h1 _
    interval_cases n
    exact (xorBitsAux_zero f2).symm
  | succ k ih =>
    intro f2 n h1 h2
    cases n with
    | zero => rw [xorBitsAux_zero, xorBitsAux_zero]
    | succ j =>
      cases f2 with
      | zero => omega
      | succ f2' =>
        simp only [xorBitsAux]
        have hd : (j + 1) / 2 ≤ k := by omega
        have hd2 : (j + 1) / 2 ≤ f2' := by omega
        rw [ih _ _ hd hd2]

theorem xor_bits_two_mul_add (a b : Nat) (hb : b < 2) :
    xor_bits (2 * a + b) = (b + xor_bits a) % 2 := by
  rcases Nat.eq_zero_or_pos (2 * a + b) with h0 | hpos
  · have ha : a = 0 := by omega
    have hb0 : b = 0 := by omega
    subst ha; subst hb0
    simp [xor_bits, xorBitsAux]
  · obtain ⟨k, hk⟩ : ∃ k, 2 * a + b = k + 1 := ⟨2 * a + b - 1, by omega⟩
    unfold xor_bits
    rw [hk]
    simp only [xorBitsAux, Nat.succ_ne_zero, if_neg (by omega : ¬ k + 1 = 0)]
    have hmod : (k + 1) % 2 = b := by omega
    have hdiv : (k + 1) / 2 = a := by omega
    rw [hmod, hdiv, xorBitsAux_congr k a a (by omega) (le_refl a)]
    simp [xor_bits]

theorem xor_bits_lt_two (n : Nat) : xor_bits n < 2 := by
  unfold xor_bits
  cases n with
  | zero => simp [xorBitsAux]
  | succ k =>
    simp only [xorBitsAux, Nat.succ_ne_zero, if_neg (by omega : ¬ k + 1 = 0)]
    exact Nat.mod_lt _ (by omega)

theorem land_two_mul_add (a b c d : Nat) (hb : b < 2) (hd : d < 2) :
    (2 * a + b) &&& (2 * c + d) = 2 * (a &&& c) + (b &&& d) := by
  apply Nat.eq_of_testBit_eq
  intro i
  cases i with
  | zero =>
    rw [Nat.testBit_land]
    simp only [Nat.testBit_zero]
    have hbd : b &&& d < 2 := by
      interval_cases b <;> interval_cases d <;> decide
    have h1 : (2 * a + b) % 2 = b := by omega
    have h2 : (2 * c + d) % 2 = d := by omega
    have h3 : (2 * (a &&& c) + (b &&& d)) % 2 = b &&& d := by omega
    rw [h1, h2, h3]
    interval_cases b <;> interval_cases d <;> decide
  | succ j =>
    rw [Nat.testBit_land]
    simp only [Nat.testBit_add_one]
    have hbd : b &&& d < 2 := by
      interval_cases b <;> interval_cases d <;> decide
    have h1 : (2 * a + b) / 2 = a := by omega
    have h2 : (2 * c + d) / 2 = c := by omega
    have h3 : (2 * (a &&& c) + (b &&& d)) / 2 = a &&& c := by omega
    rw [h1, h2, h3, Nat.testBit_land]

theorem land_one (b : Nat) (hb : b < 2) : b &&& 1 = b := by
  interval_cases b <;> decide

/-- The first coded bit separates data bits: flipping the shifted-in bit
flips the G1 parity output (G1 = 0x4F is odd). -/
theorem conv_g1_parity (R b : Nat) (hb : b < 2) :
    xor_bits ((2 * R + b) &&& 0x4F) = (b + xor_bits (R &&& 0x27)) % 2 := by
  have h79 : (0x4F : Nat) = 2 * 0x27 + 1 := by decide
  rw [h79, land_two_mul_add R b 0x27 1 hb (by decide), land_one b hb]
  exact xor_bits_two_mul_add _ b hb

theorem conv_steps_inj :
    ∀ (d d' : List Nat) (R : Nat), d.length = d'.length →
      (∀ b ∈ d, b < 2) → (∀ b ∈ d', b < 2) →
      conv_steps R d = conv_steps R d' → d = d' := by
  intro d
  induction d with
  | nil =>
    intro d' R hlen _ _ _
    exact (List.length_eq_zero.mp hlen.symm).symm
  | cons b rest ih =>
    intro d' R hlen hbin hbin' heq
    cases d' with
    | nil => simp at hlen
    | cons b' rest' =>
      have hb : b < 2 := hbin b (by simp)
      have hb' : b' < 2 := hbin' b' (by simp)
      simp only [conv_steps, List.cons.injEq, POLY_CONV] at heq
      have hhead := heq.1
      rw [land_one b hb, land_one b' hb'] at hhead
      rw [conv_g1_parity R b hb, conv_g1_parity R b' hb'] at hhead
      have hbb : b = b' := by omega
      subst hbb
      have htail := heq.2.2
      rw [land_one b hb] at htail
      have := ih rest' (2 * R + b) (by simpa using hlen)
        (fun x hx => hbin x (by simp [hx]))
        (fun x hx => hbin' x (by simp [hx])) htail
      rw [this]

theorem encode_conv_inj (d d' : List Nat) (hlen : d.length = d'.length)
    (hne : d ≠ []) (hbin : ∀ b ∈ d, b < 2) (hbin' : ∀ b ∈ d', b < 2)
    (heq : encode_conv d = encode_conv d') : d = d' := by
  have hne' : d' ≠ [] := by
    intro h
    apply hne
    apply List.length_eq_zero.mp
    rw [hlen, h]
    rfl
  unfold encode_conv at heq
  rw [if_neg hne, if_neg hne'] at heq
  have := conv_steps_inj (d ++ List.replicate 6 0) (d' ++ List.replicate 6 0) 0
    (by simp [hlen])
    (by
      intro x hx
      rcases List.mem_append.mp hx with h | h
      · exact hbin x h
      · simp [List.eq_of_mem_replicate h])
    (by
      intro x hx
      rcases List.mem_append.mp hx with h | h
      · exact hbin' x h
      · simp [List.eq_of_mem_replicate h])
    heq
  exact List.append_cancel_right this

theorem conv_steps_length (R : Nat) (l : List Nat) :
    (conv_steps R l).length = 2 * l.length := by
  induction l generalizing R with
  | nil => simp [conv_steps]
  | cons b rest ih => simp [conv_steps, ih]; omega

theorem conv_steps_binary (R : Nat) (l : List Nat) :
    ∀ x ∈ conv_steps R l, x < 2 := by
  induction l generalizing R with
  | nil => simp [conv_steps]
  | cons b rest ih =>
    intro x hx
    simp only [conv_steps, List.mem_cons] at hx
    rcases hx with h | h | h
    · exact h ▸ xor_bits_lt_two _
    · exact h ▸ xor_bits_lt_two _
    · exact ih _ x h

theorem encode_conv_length (d : List Nat) (hne : d ≠ []) :
    (encode_conv d).length = 2 * (d.length + 6) := by
  unfold encode_conv
  rw [if_neg hne, conv_steps_length]
  simp

theorem encode_conv_binary (d : List Nat) : ∀ x ∈ encode_conv d, x < 2 := by
  unfold encode_conv
  split_ifs with h
  · simp
  · exact conv_steps_binary 0 _

/-- A perfectly received codeword has metric zero. -/
theorem metric_map_self_zero (l : List Nat) (hbin : ∀ x ∈ l, x < 2) :
    ((l.zip (l.map (fun b => b * 255))).map
      (fun p => if p.1 = 1 then 255 - p.2 else p.2)).sum = 0 := by
  induction l with
  | nil => simp
  | cons a t ih =>
    have ha : a < 2 := hbin a (by simp)
    have ht := ih fun x hx => hbin x (by simp [hx])
    simp only [List.map_cons, List.zip_cons_cons, List.sum_cons, ht]
    interval_cases a <;> simp

/-- Zero metric forces the candidate encoding to equal the encoding behind
the received symbols. -/
theorem metric_zero_imp_eq :
    ∀ (e f : List Nat), (∀ x ∈ e, x < 2) → (∀ x ∈ f, x < 2) →
      e.length = f.length →
      ((e.zip (f.map (fun b => b * 255))).map
        (fun p => if p.1 = 1 then 255 - p.2 else p.2)).sum = 0 →
      e = f := by
  intro e
  induction e with
  | nil =>
    intro f _ _ hlen _
    exact (List.length_eq_zero.mp hlen.symm).symm
  | cons a t ih =>
    intro f hbe hbf hlen hsum
    cases f with
    | nil => simp at hlen
    | cons b u =>
      have ha : a < 2 := hbe a (by simp)
      have hb : b < 2 := hbf b (by simp)
      simp only [List.map_cons, List.zip_cons_cons, List.sum_cons,
        Nat.add_eq_zero] at hsum
      have hlen' : t.length = u.length := by simpa using hlen
      have hab : a = b := by
        have hterm := hsum.1
        interval_cases a <;> interval_cases b <;> simp_all
      rw [hab, ih u (fun x hx => hbe x (by simp [hx]))
        (fun x hx => hbf x (by simp [hx])) hlen' hsum.2]

/-- `argminBy` returns the unique zero of `f` when one exists. -/
theorem argminBy_eq_of_unique_zero {α : Type} (f : α → Nat) :
    ∀ (l : List α) (x : α), x ∈ l → f x = 0 →
      (∀ y ∈ l, f y = 0 → y = x) → argminBy f l = some x := by
  intro l
  induction l with
  | nil => intro x hx; simp at hx
  | cons a rest ih =>
    intro x hx hfx huniq
    rcases List.mem_cons.mp hx with h | h
    · subst h
      unfold argminBy
      cases hrest : argminBy f rest with
      | none => rfl
      | some b => simp [hfx]
    · unfold argminBy
      rw [ih x h hfx fun y hy hz => huniq y (by simp [hy]) hz]
      by_cases hfa : f a = 0
      · have hax : a = x := huniq a (by simp) hfa
        subst hax
        simp
      · show (if f a ≤ f x then some a else some x) = some x
        rw [if_neg (by omega : ¬ f a ≤ f x)]

theorem mem_allBitLists : ∀ (d : List Nat), (∀ b ∈ d, b < 2) →
    d ∈ allBitLists d.length := by
  intro d
  induction d with
  | nil => simp [allBitLists]
  | cons b t ih =>
    intro hbin
    have hb : b < 2 := hbin b (by simp)
    have ht := ih fun x hx => hbin x (by simp [hx])
    show (b :: t) ∈ allBitLists (t.length + 1)
    simp only [allBitLists, List.mem_append, List.mem_map]
    interval_cases b
    · exact Or.inl ⟨t, ht, rfl⟩
    · exact Or.inr ⟨t, ht, rfl⟩

theorem allBitLists_spec : ∀ (n : Nat) (y : List Nat), y ∈ allBitLists n →
    y.length = n ∧ ∀ b ∈ y, b < 2 := by
  intro n
  induction n with
  | zero =>
    intro y hy
    simp only [allBitLists, List.mem_singleton] at hy
    subst hy
    simp
  | succ k ih =>
    intro y hy
    simp only [allBitLists, List.mem_append, List.mem_map] at hy
    rcases hy with ⟨t, ht, rfl⟩ | ⟨t, ht, rfl⟩ <;>
    · refine ⟨by simp [(ih t ht).1], ?_⟩
      intro b hb
      rcases List.mem_cons.mp hb with h | h
      · omega
      · exact (ih t ht).2 b h

/-! ### Reed-Solomon RS(255,223), modelled from the spec -/

/-- GF(256) multiplication (Russian-peasant multiplication modulo the CCSDS
field polynomial 0x187), fuel-driven over the 8 bits of the second factor. -/
def gf256_mulAux : Nat → Nat → Nat → Nat → Nat
  | 0, _, _, acc => acc
  | f + 1, a, b, acc =>
    if b = 0 then acc
    else
      let acc2 := if b &&& 1 = 1 then acc ^^^ a else acc
      let a2 := if a &&& 0x80 = 0x80 then (a * 2) ^^^ 0x187 else a * 2
      gf256_mulAux f a2 (b / 2) acc2

/-- GF(256) product. -/
def gf256_mul (a b : Nat) : Nat := gf256_mulAux 8 a b 0

/-- Power of the primitive element alpha = 2 of GF(256). -/
def gf256_pow (k : Nat) : Nat :=
  (List.range k).foldl (fun acc _ => gf256_mul acc 2) 1

/-- Polynomial product over GF(256), coefficients in ascending degree. -/
def polyMulGF (p q : List Nat) : List Nat :=
  (List.range (p.length + q.length - 1)).map fun k =>
    (List.range (k + 1)).foldl
      (fun acc i => acc ^^^ gf256_mul (p.getD i 0) (q.getD (k - i) 0)) 0

/-- The degree-32 CCSDS RS(255,223) generator polynomial
(roots alpha^(11*(112+j)), j = 0..31), ascending coefficients. -/
def rs_generator : List Nat :=
  (List.range 32).foldl
    (fun g j => polyMulGF g [gf256_pow ((11 * (112 + j)) % 255), 1]) [1]

/-- The generator polynomial with descending coefficients. -/
def rs_generator_desc : List Nat := rs_generator.reverse

/-- Remainder of a descending-coefficient polynomial by the generator
(long division; the generator is monic so each step cancels the leading
coefficient). -/
def rs_polymodAux : Nat → List Nat → List Nat
  | 0, r => r
  | f + 1, r =>
    if r.length ≤ 32 then r
    else
      let c := r.headD 0
      let gs := rs_generator_desc.map (gf256_mul c) ++
        List.replicate (r.length - 33) 0
      rs_polymodAux f ((r.zipWith (· ^^^ ·) gs).drop 1)

/-- The 32 RS parity symbols of a 223-symbol data block: the remainder of
`data(x) · x^32` by the generator polynomial. -/
def rs_parity (data : List Nat) : List Nat :=
  let rem := rs_polymodAux 256 (data ++ List.replicate 32 0)
  List.replicate (32 - rem.length) 0 ++ rem

/-- Modelled from the spec: `sdr_fec.encode_rs(syms)` calls the libfec CCSDS
RS(255,223) encoder on the first 223 symbols and stores the 32 parity
symbols into `syms[223:]`; the embedding returns the updated buffer. -/
def encode_rs (syms : List Nat) : List Nat :=
  syms.take 223 ++ rs_parity (syms.take 223)

/-- Number of differing symbol positions of two equal-length buffers. -/
def hammingDist (a b : List Nat) : Nat :=
  (a.zip b).countP fun p => p.1 != p.2

/-- All byte lists of length `n` (a term-level enumeration; only its
membership structure matters). -/
def allByteLists : Nat → List (List Nat)
  | 0 => [[]]
  | n + 1 => (List.range 256).bind fun b => (allByteLists n).map (b :: ·)

/-- Modelled from the spec: `sdr_fec.decode_rs(syms)` calls the libfec CCSDS
RS(255,223) bounded-distance decoder, which corrects up to 16 symbol errors
in place and returns the number of corrected symbols, or -1 when no codeword
lies within 16 symbol errors.  A received word is a codeword exactly when
re-encoding its systematic data part reproduces it; that distance-0 case is
checked first so the error-free path is directly computable, and the
correction path searches for a codeword within distance 16. -/
def decode_rs (syms : List Nat) : List Nat × ℤ :=
  if encode_rs syms = syms then (syms, 0)
  else
    match (allByteLists 223).find?
        (fun d => decide (hammingDist (encode_rs (d ++ List.replicate 32 0))
          syms ≤ 16)) with
    | some d =>
      (encode_rs (d ++ List.replicate 32 0),
       (hammingDist (encode_rs (d ++ List.replicate 32 0)) syms : ℤ))
    | none => (syms, -1)

theorem encode_rs_take (syms : List Nat) (hlen : 223 ≤ syms.length) :
    (encode_rs syms).take 223 = syms.take 223 := by
  unfold encode_rs
  have h : (syms.take 223).length = 223 := by simp [hlen]
  exact List.take_left' h

theorem encode_rs_idem (syms : List Nat) (hlen : 223 ≤ syms.length) :
    encode_rs (encode_rs syms) = encode_rs syms := by
  conv_lhs => rw [encode_rs]
  rw [encode_rs_take syms hlen]
  rfl

/-- C6 (amended): error-free FEC round trips.  For the convolutional pair
the decoder consumes 8-bit soft symbols, so the hard coded bits must be
scaled to 0/255 (exactly as the repository's own test does:
`decode_conv(encode_conv(data) * 255)`); then decoding recovers every
nonempty bit array.  For Reed-Solomon, re-decoding a buffer whose parity was
filled in by `encode_rs` leaves the whole buffer (in particular the 223 data
symbols) unchanged and returns 0 corrected symbols. -/
theorem fec_roundtrip (data syms : List Nat)
    (hne : data ≠ []) (hbin : ∀ b ∈ data, b < 2) (hlen : syms.length = 255) :
    decode_conv ((encode_conv data).map (fun b => b * 255)) = data ∧
    (decode_rs (encode_rs syms)).1 = encode_rs syms ∧
    (encode_rs syms).take 223 = syms.take 223 ∧
    (decode_rs (encode_rs syms)).2 = 0 := by
  have hL : 1 ≤ data.length := by
    cases data with
    | nil => exact absurd rfl hne
    | cons a t => simp
  have henc_len : ((encode_conv data).map (fun b => b * 255)).length =
      2 * (data.length + 6) := by
    rw [List.length_map, encode_conv_length data hne]
  refine ⟨?_, ?_, encode_rs_take syms (by omega), ?_⟩
  · unfold decode_conv
    rw [henc_len]
    have hN : 2 * (data.length + 6) / 2 - 6 = data.length := by omega
    rw [hN, if_neg (by omega : ¬ data.length = 0)]
    have htake : ((encode_conv data).map (fun b => b * 255)).take
        ((data.length + 6) * 2) = (encode_conv data).map (fun b => b * 255) := by
      apply List.take_of_length_le
      rw [henc_len]
      omega
    rw [htake]
    have hzero : conv_metric ((encode_conv data).map (fun b => b * 255))
        data = 0 := by
      unfold conv_metric
      exact metric_map_self_zero (encode_conv data) (encode_conv_binary data)
    have harg := argminBy_eq_of_unique_zero
      (conv_metric ((encode_conv data).map (fun b => b * 255)))
      (allBitLists data.length) data (mem_allBitLists data hbin) hzero ?uniq
    · rw [harg]
      rfl
    case uniq =>
      intro y hy hzy
      obtain ⟨hylen, hybin⟩ := allBitLists_spec data.length y hy
      have hyne : y ≠ [] := by
        intro h
        rw [h] at hylen
        simp at hylen
        omega
      have heq := metric_zero_imp_eq (encode_conv y) (encode_conv data)
        (encode_conv_binary y) (encode_conv_binary data)
        (by rw [encode_conv_length y hyne, encode_conv_length data hne, hylen])
        hzy
      exact encode_conv_inj y data (by rw [hylen]) hyne hybin hbin heq
  · unfold decode_rs
    rw [if_pos (encode_rs_idem syms (by omega))]
  · unfold decode_rs
    rw [if_pos (encode_rs_idem syms (by omega))]

/-- Witness for C6 at a one-bit payload and the all-zero RS data block. -/
theorem fec_roundtrip_witness :
    decode_conv ((encode_conv [1]).map (fun b => b * 255)) = [1] ∧
    (decode_rs (encode_rs (List.replicate 255 0))).1 =
      encode_rs (List.replicate 255 0) ∧
    (encode_rs (List.replicate 255 0)).take 223 =
      (List.replicate 255 0).take 223 ∧
    (decode_rs (encode_rs (List.replicate 255 0))).2 = 0 :=
  fec_roundtrip [1] (List.replicate 255 0) (by decide) (by decide)
    (List.length_replicate 255 0)

/-- C6 counterexample to the claim as stated: without the 0/255 scaling the
soft-decision Viterbi decoder does not invert the encoder — decoding the raw
0/1 coded bits of the payload `[1]` yields `[0]`.  (The repository's own
test `sdr_fec_test.test_01` applies the scaling: `decode_conv(enc_data *
255)`.) -/
theorem decode_encode_conv_unscaled_counterexample :
    decode_conv (encode_conv [1]) = [0] ∧
    decode_conv (encode_conv [1]) ≠ [1] := by
  decide

/-! ## Receiver channel (`sdr_ch.py`, claims C2, C3, C4, C5, C10)

Python floats become `ℚ`; complex correlator values become pairs `ℚ × ℚ`
(real, imaginary).  The transcendental primitives (`log10`, `atan`, `atan2`,
the complex magnitude and the constant π) and the correlator primitives
(`corr_std`/`corr_fft`, which run in the external C library libsdr) are
carried in an explicit `Ext` record of function parameters: the claims
settled here hold for every choice of these externals.  `sdr_nav.nav_decode`
(embedded separately below for claim C7) mutates only `ch.nav` and the
channel-level `nerr` scratch field, so the tracking step carries it as the
parameter `navDec` returning exactly those two components. -/

/-- A complex number as (real, imaginary). -/
abbrev Cplx : Type := ℚ × ℚ

/-- `T_ACQ` of `sdr_ch.py` (s). -/
def T_ACQ : ℚ := 0.010

/-- `T_DLL` of `sdr_ch.py` (s). -/
def T_DLL : ℚ := 0.010

/-- `T_CN0` of `sdr_ch.py` (s). -/
def T_CN0 : ℚ := 1.0

/-- `T_FPULLIN` of `sdr_ch.py` (s). -/
def T_FPULLIN : ℚ := 1.0

/-- `T_NPULLIN` of `sdr_ch.py` (s). -/
def T_NPULLIN : ℚ := 1.5

/-- `N_HIST` of `sdr_ch.py`. -/
def N_HIST : Nat := 10000

/-- `B_DLL` of `sdr_ch.py` (Hz). -/
def B_DLL : ℚ := 0.5

/-- `B_PLL` of `sdr_ch.py` (Hz). -/
def B_PLL : ℚ := 10.0

/-- `B_FLL` of `sdr_ch.py` (Hz), (wide, narrow). -/
def B_FLL : ℚ × ℚ := (10.0, 2.0)

/-- `THRES_CN0` of `sdr_ch.py` (dB-Hz), (lock, lost). -/
def THRES_CN0 : ℚ × ℚ := (35.0, 32.0)

/-- `THRES_SYNC` of `sdr_ch.py` (secondary-code sync threshold). -/
def THRES_SYNC : ℚ := 0.04

/-- `THRES_LOST` of `sdr_ch.py` (secondary-code lost threshold). -/
def THRES_LOST : ℚ := 0.003

/-- Python `int(x)` on a float: truncation toward zero. -/
def intPy (q : ℚ) : ℤ := if 0 ≤ q then ⌊q⌋ else ⌈q⌉

/-- Tracking sub-state (`sdr_ch.trk_new`). -/
structure Trk where
  pos : List ℤ
  C : List Cplx
  P : List Cplx
  sec_sync : ℤ
  sec_pol : ℤ
  err_phas : ℚ
  sumP : ℚ
  sumE : ℚ
  sumL : ℚ
  sumN : ℚ
  code : List Cplx

/-- Navigation sub-state (`sdr_nav.nav_new`); `count` is the (OK, error)
pair, `data` the list of emitted (time, frame bytes) records. -/
structure NavData where
  ssync : ℤ
  fsync : ℤ
  rev : ℤ
  seq : ℤ
  nerr : ℤ
  syms : List Nat
  tsyms : List ℚ
  data : List (ℚ × List Nat)
  count : Nat × Nat
  opt : String

/-- Acquisition sub-state (`sdr_ch.acq_new`). -/
structure Acq where
  code_fft : List Cplx
  fds : List ℚ
  P_sum : List (List ℚ)
  n_sum : Nat

/-- Channel state tag (`ch.state` strings 'SRCH' / 'LOCK' / 'IDLE'). -/
inductive ChState
  | SRCH
  | LOCK
  | IDLE
deriving DecidableEq

/-- Receiver channel (`sdr_ch.ch_new`); `nerr` is the channel-level
corrected-error scratch attribute set by `decode_L6_frame`. -/
structure Ch where
  state : ChState
  time : ℚ
  sig : String
  prn : ℤ
  fc : ℚ
  fs : ℚ
  fi : ℚ
  T : ℚ
  N : Nat
  fd : ℚ
  coff : ℚ
  adr : ℚ
  cn0 : ℚ
  lock : ℤ
  lost : Nat
  costas : Bool
  code : List ℤ
  sec_code : List ℤ
  nerr : ℤ
  acq : Acq
  trk : Trk
  nav : NavData

/-- External primitives: float transcendentals, complex magnitude, π, the
libsdr correlators, and the navigation decoder (`sdr_nav.nav_decode`, which
writes only `ch.nav` and `ch.nerr`). -/
structure Ext where
  log10 : ℚ → ℚ
  atan : ℚ → ℚ
  atan2 : ℚ → ℚ → ℚ
  pi : ℚ
  cabs : Cplx → ℚ
  corr_std : List Cplx → ℤ → Nat → ℚ → ℚ → ℚ → List Cplx → List ℤ → List Cplx
  corr_fft : List Cplx → ℤ → Nat → ℚ → ℚ → ℚ → List Cplx → List Cplx
  navDec : Ch → NavData × ℤ

/-- Embedding of `sdr_ch.trk_new(sig, prn, code, T, fs, sp_corr, add_corr)`;
the code replica (`sdr_code.res_code` / `gen_code_fft`, external Code Source)
is passed in as `coderep`. -/
def trk_new (code : List ℤ) (T fs sp_corr : ℚ) (add_corr : Nat)
    (coderep : List Cplx) : Trk :=
  let p : ℤ := intPy (sp_corr * T / (code.length : ℚ) * fs) + 1
  let pos : List ℤ := [0, -p, p, -80] ++
    (if 0 < add_corr then
      (List.range (2 * add_corr + 1)).map (fun k => (k : ℤ) - (add_corr : ℤ))
     else [])
  { pos := pos
    C := List.replicate pos.length ((0, 0) : Cplx)
    P := List.replicate N_HIST ((0, 0) : Cplx)
    sec_sync := 0
    sec_pol := 0
    err_phas := 0
    sumP := 0
    sumE := 0
    sumL := 0
    sumN := 0
    code := coderep }

/-- Embedding of `sdr_ch.trk_init(trk)`. -/
def trk_init (trk : Trk) : Trk :=
  { trk with
    err_phas := 0
    sec_sync := 0
    sec_pol := 0
    sumP := 0
    sumE := 0
    sumL := 0
    sumN := 0
    C := List.replicate trk.C.length ((0, 0) : Cplx)
    P := List.replicate trk.P.length ((0, 0) : Cplx) }

/-- Embedding of `sdr_nav.nav_new(nav_opt)`. -/
def nav_new (nav_opt : String) : NavData :=
  { ssync := 0
    fsync := 0
    rev := 0
    seq := 0
    nerr := 0
    syms := List.replicate 18000 0
    tsyms := List.replicate 18000 0
    data := []
    count := (0, 0)
    opt := nav_opt }

/-- Embedding of `sdr_nav.nav_init(nav)`: clears the sync fields and the
symbol buffers; `nav.data`, `nav.count` and `nav.nerr` are not touched. -/
def nav_init (nav : NavData) : NavData :=
  { nav with
    ssync := 0
    fsync := 0
    rev := 0
    seq := 0
    syms := List.replicate nav.syms.length 0
    tsyms := List.replicate nav.tsyms.length 0 }

/-- Embedding of `sdr_ch.start_track(ch, fd, coff, cn0)`. -/
def start_track (ch : Ch) (fd coff cn0 : ℚ) : Ch :=
  { ch with
    state := ChState.LOCK
    lock := 0
    fd := fd
    coff := coff
    adr := 0
    cn0 := cn0
    trk := trk_init ch.trk
    nav := nav_init ch.nav }

/-- First maximum of a value list with its index, as `np.argmax` (first
occurrence wins). -/
def argmaxAux (i best : Nat) (bv : ℚ) : List ℚ → Nat × ℚ
  | [] => (best, bv)
  | x :: rest =>
    if bv < x then argmaxAux (i + 1) i x rest else argmaxAux (i + 1) best bv rest

/-- Index and value of the first maximum of a list (`np.argmax`). -/
def list_argmax : List ℚ → Nat × ℚ
  | [] => (0, 0)
  | x :: rest => argmaxAux 1 0 x rest

/-- Row-major first maximum of a matrix (`np.unravel_index(np.argmax(P),
P.shape)`). -/
def mat_argmaxAux (i : Nat) (best : (Nat × Nat) × ℚ) :
    List (List ℚ) → (Nat × Nat) × ℚ
  | [] => best
  | row :: rest =>
    let rm := list_argmax row
    if best.2 < rm.2 then mat_argmaxAux (i + 1) ((i, rm.1), rm.2) rest
    else mat_argmaxAux (i + 1) best rest

/-- Position and value of the row-major first maximum of a matrix. -/
def mat_argmax : List (List ℚ) → (Nat × Nat) × ℚ
  | [] => ((0, 0), 0)
  | row :: rest =>
    let rm := list_argmax row
    mat_argmaxAux 1 ((0, rm.1), rm.2) rest

/-- Elementwise sum of two matrices (`P_sum += ...`). -/
def matAdd (A B : List (List ℚ)) : List (List ℚ) :=
  List.zipWith (List.zipWith (· + ·)) A B

/-- Zero matrix of the same shape (`P_sum[:][:] = 0.0`). -/
def matZero (A : List (List ℚ)) : List (List ℚ) :=
  A.map fun row => row.map fun _ => 0

/-- Column `j` of a matrix (`P.T[j]`). -/
def matCol (P : List (List ℚ)) (j : Nat) : List ℚ :=
  P.map fun row => row.getD j 0

/-- Mean over all entries (`np.mean(P)`). -/
def matMean (P : List (List ℚ)) : ℚ :=
  ((P.map List.sum).sum) / (((P.map List.length).sum : Nat) : ℚ)

/-- Embedding of `sdr_func.search_code(code_fft, T, buff, ix, fs, fi, fds)`:
one row of squared correlation magnitudes per Doppler bin. -/
def search_code (ext : Ext) (code_fft : List Cplx) (T : ℚ) (buff : List Cplx)
    (ix : ℤ) (fs fi : ℚ) (fds : List ℚ) : List (List ℚ) :=
  let N := (intPy (fs * T)).toNat
  fds.map fun fd =>
    ((ext.corr_fft buff ix code_fft.length fs (fi + fd) 0 code_fft).take N).map
      fun c => (ext.cabs c) ^ 2

/-- Embedding of `sdr_func.corr_max(P, T)`: the maximum power, its (Doppler,
code-offset) indices, and the coarse C/N0
`10 log10((P_max - P_ave)/P_ave/T)` (0 when the mean power is not positive). -/
def corr_max (ext : Ext) (P : List (List ℚ)) (T : ℚ) : ℚ × (Nat × Nat) × ℚ :=
  let m := mat_argmax P
  let P_max := m.2
  let P_ave := matMean P
  let cn0 := if 0 < P_ave then 10 * ext.log10 ((P_max - P_ave) / P_ave / T)
             else 0
  (P_max, m.1, cn0)

/-- Leading coefficient of the quadratic through three points (Lagrange). -/
def quadFitA (x0 x1 x2 y0 y1 y2 : ℚ) : ℚ :=
  y0 / ((x0 - x1) * (x0 - x2)) + y1 / ((x1 - x0) * (x1 - x2)) +
    y2 / ((x2 - x0) * (x2 - x1))

/-- Linear coefficient of the quadratic through three points (Lagrange). -/
def quadFitB (x0 x1 x2 y0 y1 y2 : ℚ) : ℚ :=
  -(y0 * (x1 + x2) / ((x0 - x1) * (x0 - x2)) +
    y1 * (x0 + x2) / ((x1 - x0) * (x1 - x2)) +
    y2 * (x0 + x1) / ((x2 - x0) * (x2 - x1)))

/-- Constant coefficient of the quadratic through three points (Lagrange). -/
def quadFitC (x0 x1 x2 y0 y1 y2 : ℚ) : ℚ :=
  y0 * x1 * x2 / ((x0 - x1) * (x0 - x2)) +
    y1 * x0 * x2 / ((x1 - x0) * (x1 - x2)) +
    y2 * x0 * x1 / ((x2 - x0) * (x2 - x1))

/-- Embedding of `sdr_func.fine_dop(P, fds, ix)`: at an edge bin the bin
frequency itself, otherwise the vertex `-p1/(2 p0)` of the quadratic fitted
through the three points around the peak (`np.polyfit` of degree 2 on three
points is exact interpolation). -/
def fine_dop (P fds : List ℚ) (ix : Nat) : ℚ :=
  if ix = 0 ∨ ix = fds.length - 1 then fds.getD ix 0
  else
    let x0 := fds.getD (ix - 1) 0
    let x1 := fds.getD ix 0
    let x2 := fds.getD (ix + 1) 0
    let y0 := P.getD (ix - 1) 0
    let y1 := P.getD ix 0
    let y2 := P.getD (ix + 1) 0
    let a := quadFitA x0 x1 x2 y0 y1 y2
    let b := quadFitB x0 x1 x2 y0 y1 y2
    let v := -b / (2 * a)
    v

/-- Embedding of `sdr_ch.search_sig(ch, time, buff, ix)`: accumulate the
non-coherent power surface; once the accumulated integration reaches
`T_ACQ`, decide lock (C/N0 at or above the lock threshold, Doppler refined
by `fine_dop`, code offset the peak sample over the sampling rate) or idle,
and reset the accumulator and its count. -/
def search_sig (ext : Ext) (ch : Ch) (time : ℚ) (buff : List Cplx)
    (ix : ℤ) : Ch :=
  let ch := { ch with time := time }
  let Pn := matAdd ch.acq.P_sum
    (search_code ext ch.acq.code_fft ch.T buff ix ch.fs ch.fi ch.acq.fds)
  let ns : Nat := ch.acq.n_sum + 1
  if T_ACQ ≤ (ns : ℚ) * ch.T then
    let r := corr_max ext Pn ch.T
    let ch :=
      if THRES_CN0.1 ≤ r.2.2 then
        start_track ch (fine_dop (matCol Pn r.2.1.2) ch.acq.fds r.2.1.1)
          ((r.2.1.2 : ℚ) / ch.fs) r.2.2
      else { ch with state := ChState.IDLE }
    { ch with acq := { ch.acq with P_sum := matZero Pn, n_sum := 0 } }
  else
    { ch with acq := { ch.acq with P_sum := Pn, n_sum := ns } }

/-- Embedding of `sdr_ch.sync_sec_code(ch, N)`: acquire / maintain / drop
secondary-code synchronization on the last `N` prompt correlator values, and
remove the secondary-code modulation once synchronized. -/
def sync_sec_code (ch : Ch) (N : Nat) : Ch :=
  let lastP := (ch.trk.P.drop (ch.trk.P.length - N)).map Prod.fst
  let ch :=
    if ch.trk.sec_sync = 0 then
      let Pv := (List.zipWith (fun a (b : ℤ) => a * (b : ℚ)) lastP
        ch.sec_code).sum / (N : ℚ)
      if THRES_SYNC ≤ |Pv| then
        { ch with trk := { ch.trk with
            sec_sync := ch.lock
            sec_pol := if 0 < Pv then 1 else -1 } }
      else ch
    else if Int.fmod (ch.lock - ch.trk.sec_sync) (N : ℤ) = 0 then
      if |lastP.sum / (N : ℚ)| < THRES_LOST then
        { ch with trk := { ch.trk with sec_sync := 0, sec_pol := 0 } }
      else ch
    else ch
  if 0 < ch.trk.sec_sync then
    let f : ℚ :=
      ((ch.sec_code.getD (Int.fmod (ch.lock - ch.trk.sec_sync - 1)
        (N : ℤ)).toNat 0 : ℤ) : ℚ) * (ch.trk.sec_pol : ℚ)
    let pl := ch.trk.P.getD (ch.trk.P.length - 1) ((0, 0) : Cplx)
    { ch with trk := { ch.trk with
        C := ch.trk.C.map fun c => (c.1 * f, c.2 * f)
        P := ch.trk.P.set (ch.trk.P.length - 1) (pl.1 * f, pl.2 * f) } }
  else ch

/-- Embedding of `sdr_ch.FLL(ch)`: frequency-lock discriminator on the last
two prompt correlator values; the Doppler estimate changes only when at
least two history samples exist (`ch.lock >= 2`) and the dot product is
nonzero. -/
def FLL (ext : Ext) (ch : Ch) : Ch :=
  if 2 ≤ ch.lock then
    let p1 := ch.trk.P.getD (ch.trk.P.length - 1) ((0, 0) : Cplx)
    let p2 := ch.trk.P.getD (ch.trk.P.length - 2) ((0, 0) : Cplx)
    let dot := p1.1 * p2.1 + p1.2 * p2.2
    let cross := p1.1 * p2.2 - p1.2 * p2.1
    if dot ≠ 0 then
      let B := if (ch.lock : ℚ) * ch.T < T_FPULLIN / 2 then B_FLL.1
               else B_FLL.2
      let err_freq := if ch.costas then ext.atan (cross / dot)
                      else ext.atan2 cross dot
      { ch with fd := ch.fd - B / 0.25 * err_freq / 2 / ext.pi }
    else ch
  else ch

/-- Embedding of `sdr_ch.PLL(ch)`: phase-lock discriminator on the prompt
correlator; Doppler and the stored phase error change only when the prompt
in-phase component is nonzero. -/
def PLL (ext : Ext) (ch : Ch) : Ch :=
  let IP := (ch.trk.C.getD 0 ((0, 0) : Cplx)).1
  let QP := (ch.trk.C.getD 0 ((0, 0) : Cplx)).2
  if IP ≠ 0 then
    let err_phas := (if ch.costas then ext.atan (QP / IP)
                     else ext.atan2 QP IP) / 2 / ext.pi
    let W := B_PLL / 0.53
    { ch with
      fd := ch.fd + 1.4 * W * (err_phas - ch.trk.err_phas) +
        W * W * err_phas * ch.T
      trk := { ch.trk with err_phas := err_phas } }
  else ch

/-- Embedding of `sdr_ch.DLL(ch)`: non-coherent early/late accumulation and
the normalized early-minus-late discriminator every `max(1, T_DLL/T)`
epochs. -/
def DLL (ext : Ext) (ch : Ch) : Ch :=
  let N : Nat := max 1 (intPy (T_DLL / ch.T)).toNat
  let sumE := ch.trk.sumE + ext.cabs (ch.trk.C.getD 1 ((0, 0) : Cplx))
  let sumL := ch.trk.sumL + ext.cabs (ch.trk.C.getD 2 ((0, 0) : Cplx))
  let ch := { ch with trk := { ch.trk with sumE := sumE, sumL := sumL } }
  if Int.fmod ch.lock (N : ℤ) = 0 then
    let err_code := (sumE - sumL) / (sumE + sumL) / 2 * ch.T /
      (ch.code.length : ℚ)
    { ch with
      coff := ch.coff - B_DLL / 0.25 * err_code * ch.T * (N : ℚ)
      trk := { ch.trk with sumE := 0, sumL := 0 } }
  else ch

/-- Embedding of `sdr_ch.CN0(ch)`: accumulate prompt and noise powers; every
`T_CN0/T` epochs smooth the new C/N0 estimate into the stored value, but
only when the accumulated noise power is strictly positive, and reset the
accumulators. -/
def CN0 (ext : Ext) (ch : Ch) : Ch :=
  let sumP := ch.trk.sumP + (ext.cabs (ch.trk.C.getD 0 ((0, 0) : Cplx))) ^ 2
  let sumN := ch.trk.sumN + (ext.cabs (ch.trk.C.getD 3 ((0, 0) : Cplx))) ^ 2
  let ch := { ch with trk := { ch.trk with sumP := sumP, sumN := sumN } }
  if Int.fmod ch.lock ((intPy (T_CN0 / ch.T)).toNat : ℤ) = 0 then
    let ch :=
      if 0 < sumN then
        { ch with cn0 := ch.cn0 +
            0.5 * (10 * ext.log10 (sumP / sumN / ch.T) - ch.cn0) }
      else ch
    { ch with trk := { ch.trk with sumP := 0, sumN := 0 } }
  else ch

/-- Linear interpolation of real samples on the integer grid `-n .. n-1`
(`np.interp` clamps outside the grid). -/
def interpQ (fp : List ℚ) (n : ℤ) (x : ℚ) : ℚ :=
  if x ≤ ((-n : ℤ) : ℚ) then fp.headD 0
  else if ((n - 1 : ℤ) : ℚ) ≤ x then fp.getLastD 0
  else
    let j : ℤ := ⌊x⌋
    let t : ℚ := x - (j : ℚ)
    let a := fp.getD (j + n).toNat 0
    let b := fp.getD ((j + n).toNat + 1) 0
    a + t * (b - a)

/-- Componentwise linear interpolation of complex samples on the integer
grid `-n .. n-1`. -/
def interpC (fp : List Cplx) (n : ℤ) (x : ℚ) : Cplx :=
  if x ≤ ((-n : ℤ) : ℚ) then fp.headD ((0, 0) : Cplx)
  else if ((n - 1 : ℤ) : ℚ) ≤ x then fp.getLastD ((0, 0) : Cplx)
  else
    let j : ℤ := ⌊x⌋
    let t : ℚ := x - (j : ℚ)
    let a := fp.getD (j + n).toNat ((0, 0) : Cplx)
    let b := fp.getD ((j + n).toNat + 1) ((0, 0) : Cplx)
    (a.1 + t * (b.1 - a.1), a.2 + t * (b.2 - a.2))

/-- Embedding of `sdr_ch.CSK(ch, C)`: decode the L6 code-shift-keyed symbol
from the FFT correlator output, append it to the navigation symbol ring, and
produce interpolated correlator outputs at the configured tap offsets. -/
def CSK (ext : Ext) (ch : Ch) (C : List Cplx) : Ch × List Cplx :=
  let R : ℚ := (ch.N : ℚ) / ((ch.code.length / 2 : Nat) : ℚ)
  let n : Nat := (intPy (280 * R)).toNat
  let Cs := C.drop (C.length - n) ++ C.take n
  let P := (List.range 511).map fun k =>
    interpQ (Cs.map ext.cabs) (n : ℤ) ((((k : ℤ) - 255 : ℤ) : ℚ) * R)
  let ixm : ℤ := ((list_argmax P).1 : ℤ) - 255
  let ch := { ch with nav := { ch.nav with
    syms := add_buff ch.nav.syms (255 - (Int.fmod ixm 256)).toNat } }
  let newC := ch.trk.pos.map fun p =>
    interpC Cs (n : ℤ) ((ixm : ℚ) * R + (p : ℚ))
  (ch, newC)

/-- Embedding of `sdr_ch.track_sig(ch, time, buff, ix)`: one tracking epoch
(carrier-aiding, correlation, history append, lock-count increment,
secondary-code sync, FLL/PLL, DLL, C/N0 update, navigation decoding, and the
signal-lost check). -/
def track_sig (ext : Ext) (ch : Ch) (time : ℚ) (buff : List Cplx)
    (ix : ℤ) : Ch :=
  let tau := time - ch.time
  let fc := ch.fi + ch.fd
  let ch := { ch with
    adr := ch.adr + ch.fd * tau
    coff := ch.coff - ch.fd / ch.fc * tau
    time := time }
  let i : ℤ := Int.fmod (intPy (ch.coff * ch.fs + 0.5)) (ch.N : ℤ)
  let phi := ch.fi * tau + ch.adr + fc * (i : ℚ) / ch.fs
  let ch :=
    if ch.sig = "L6D" ∨ ch.sig = "L6E" then
      let C := ext.corr_fft buff (ix + i) ch.N ch.fs fc phi ch.trk.code
      let r := CSK ext ch C
      { r.1 with trk := { r.1.trk with C := r.2 } }
    else
      { ch with trk := { ch.trk with
          C := ext.corr_std buff (ix + i) ch.N ch.fs fc phi ch.trk.code
            ch.trk.pos } }
  let ch := { ch with trk := { ch.trk with
    P := add_buff ch.trk.P (ch.trk.C.getD 0 ((0, 0) : Cplx)) } }
  let ch := { ch with lock := ch.lock + 1 }
  let Ns := ch.sec_code.length
  let ch := if 2 ≤ Ns ∧ T_NPULLIN ≤ (ch.lock : ℚ) * ch.T then
      sync_sec_code ch Ns
    else ch
  let ch := if (ch.lock : ℚ) * ch.T ≤ T_FPULLIN then FLL ext ch
    else PLL ext ch
  let ch := DLL ext ch
  let ch := CN0 ext ch
  let ch := if T_NPULLIN ≤ (ch.lock : ℚ) * ch.T then
      let nd := ext.navDec ch
      { ch with nav := nd.1, nerr := nd.2 }
    else ch
  if ch.cn0 < THRES_CN0.2 then
    { ch with state := ChState.IDLE, lost := ch.lost + 1 }
  else ch

/-- Embedding of `sdr_ch.ch_update(ch, time, buff, ix)`. -/
def ch_update (ext : Ext) (ch : Ch) (time : ℚ) (buff : List Cplx)
    (ix : ℤ) : Ch :=
  match ch.state with
  | ChState.SRCH => search_sig ext ch time buff ix
  | ChState.LOCK => track_sig ext ch time buff ix
  | ChState.IDLE => { ch with time := time }

/-- C9: the fixed-capacity rings never change length under any channel
operation: every append via `add_buff` shifts the surviving contents left by
one (element `i` of the result is element `i+1` of the old buffer, the
oldest entry is discarded), writes the new item at the last position, and
preserves the length; the correlator-history ring created by `trk_new` has
`N_HIST = 10000` entries and the navigation symbol ring created by `nav_new`
has 18000 entries.  (For an empty buffer the Python `add_buff` raises
`IndexError`; the rings are never empty.) -/
theorem add_buff_ring {α : Type} (b : List α) (x : α) (hb : b ≠ [])
    (code : List ℤ) (T fs sp_corr : ℚ) (add_corr : Nat)
    (coderep : List Cplx) (opt : String) :
    (add_buff b x).length = b.length ∧
    (add_buff b x).getLast? = some x ∧
    (∀ i : Nat, i + 1 < b.length →
      (add_buff b x).get? i = b.get? (i + 1)) ∧
    (trk_new code T fs sp_corr add_corr coderep).P.length = N_HIST ∧
    (nav_new opt).syms.length = 18000 := by
  refine ⟨?_, ?_, ?_, List.length_replicate N_HIST _, List.length_replicate 18000 _⟩
  · simp [add_buff]
    cases b with
    | nil => exact absurd rfl hb
    | cons a l => simp
  · simp [add_buff]
  · intro i hi
    simp only [add_buff]
    rw [List.get?_append]
    · cases b with
      | nil => simp at hi
      | cons a l => simp [List.get?]
    · cases b with
      | nil => simp at hi
      | cons a l => simpa using Nat.lt_of_succ_lt_succ (by simpa using hi)

/-- Witness for C9 at a concrete buffer and configuration. -/
theorem add_buff_ring_witness :
    (add_buff [1, 2, 3] 9).length = 3 ∧
    (add_buff [1, 2, 3] 9).getLast? = some 9 ∧
    (∀ i : Nat, i + 1 < 3 →
      (add_buff [1, 2, 3] 9).get? i = [1, 2, 3].get? (i + 1)) ∧
    (trk_new [1] 1 1 (1/2) 0 []).P.length = N_HIST ∧
    (nav_new "").syms.length = 18000 :=
  add_buff_ring [1, 2, 3] 9 (by decide) [1] 1 1 (1/2) 0 [] ""

/-- A concrete external-primitive record used by the witnesses. -/
def ext0 : Ext :=
  { log10 := fun _ => 0
    atan := fun _ => 0
    atan2 := fun _ _ => 0
    pi := 3
    cabs := fun _ => 0
    corr_std := fun _ _ _ _ _ _ _ _ => []
    corr_fft := fun _ _ _ _ _ _ _ => []
    navDec := fun c => (c.nav, c.nerr) }

/-- A concrete LOCKed channel used by the witnesses. -/
def ch0 : Ch :=
  { state := ChState.LOCK
    time := 0
    sig := "L1CA"
    prn := 1
    fc := 1
    fs := 1
    fi := 0
    T := 1
    N := 1
    fd := 0
    coff := 0
    adr := 0
    cn0 := 0
    lock := 0
    lost := 0
    costas := true
    code := [1]
    sec_code := []
    nerr := 0
    acq := { code_fft := [], fds := [], P_sum := [], n_sum := 0 }
    trk := { pos := [0, -1, 1, -80], C := [], P := [], sec_sync := 0,
             sec_pol := 0, err_phas := 0, sumP := 0, sumE := 0, sumL := 0,
             sumN := 0, code := [] }
    nav := nav_new "" }

/-! Component frame lemmas: the tracking-loop steps never touch the channel
state tag, the lost counter or the lock counter. -/

theorem sync_sec_code_frame (ch : Ch) (N : Nat) :
    (sync_sec_code ch N).state = ch.state ∧
    (sync_sec_code ch N).lost = ch.lost ∧
    (sync_sec_code ch N).lock = ch.lock := by
  unfold sync_sec_code
  dsimp only
  split_ifs <;> exact ⟨rfl, rfl, rfl⟩

theorem FLL_frame (ext : Ext) (ch : Ch) :
    (FLL ext ch).state = ch.state ∧ (FLL ext ch).lost = ch.lost ∧
    (FLL ext ch).lock = ch.lock := by
  unfold FLL
  dsimp only
  split_ifs <;> exact ⟨rfl, rfl, rfl⟩

theorem PLL_frame (ext : Ext) (ch : Ch) :
    (PLL ext ch).state = ch.state ∧ (PLL ext ch).lost = ch.lost ∧
    (PLL ext ch).lock = ch.lock := by
  unfold PLL
  dsimp only
  split_ifs <;> exact ⟨rfl, rfl, rfl⟩

theorem DLL_frame (ext : Ext) (ch : Ch) :
    (DLL ext ch).state = ch.state ∧ (DLL ext ch).lost = ch.lost ∧
    (DLL ext ch).lock = ch.lock := by
  unfold DLL
  dsimp only
  split_ifs <;> exact ⟨rfl, rfl, rfl⟩

theorem CN0_frame (ext : Ext) (ch : Ch) :
    (CN0 ext ch).state = ch.state ∧ (CN0 ext ch).lost = ch.lost ∧
    (CN0 ext ch).lock = ch.lock := by
  unfold CN0
  dsimp only
  split_ifs <;> exact ⟨rfl, rfl, rfl⟩

/-- The tracking epoch before its final signal-lost check: state, lost
unchanged, lock incremented by one, and the whole update is the lost check
applied to it. -/
theorem CSK_frame (ext : Ext) (ch : Ch) (C : List Cplx) :
    (CSK ext ch C).1.state = ch.state ∧ (CSK ext ch C).1.lost = ch.lost ∧
    (CSK ext ch C).1.lock = ch.lock := by
  unfold CSK
  dsimp only
  exact ⟨rfl, rfl, rfl⟩

theorem track_sig_shape (ext : Ext) (ch : Ch) (time : ℚ) (buff : List Cplx)
    (ix : ℤ) :
    ∃ chN : Ch, chN.state = ch.state ∧ chN.lost = ch.lost ∧
      chN.lock = ch.lock + 1 ∧
      track_sig ext ch time buff ix =
        (if chN.cn0 < THRES_CN0.2 then
          { chN with state := ChState.IDLE, lost := chN.lost + 1 }
         else chN) := by
  unfold track_sig
  dsimp only
  refine ⟨_, ?_, ?_, ?_, rfl⟩ <;>
    simp only [apply_ite Ch.state, apply_ite Ch.lost, apply_ite Ch.lock,
      sync_sec_code_frame, FLL_frame, PLL_frame, DLL_frame, CN0_frame,
      CSK_frame, ite_self]

/-- C2 (amended): resetting a channel back into tracking (`start_track`,
entered on the next lock after state→IDLE→SEARCH) restores every field set
by `trk_new` to its freshly-created value (correlator outputs and history
zeroed at unchanged length, sync/polarity/loop-filter memory and energy
accumulators cleared, tap positions and code replica configuration
unchanged) and zeroes the navigation sync fields (`ssync`, `fsync`, `rev`,
`seq`) and symbol buffers; but the navigation record list `nav.data`, the
OK/error count pair `nav.count` and the corrected-error count `nav.nerr`
retain their accumulated values (and the acquisition sub-state is left as
it was), so the result is not byte-identical to a newly created channel
once any frame has been decoded or counted. -/
theorem start_track_reset (ch : Ch) (fd coff cn0 : ℚ) :
    (start_track ch fd coff cn0).state = ChState.LOCK ∧
    (start_track ch fd coff cn0).lock = 0 ∧
    (start_track ch fd coff cn0).fd = fd ∧
    (start_track ch fd coff cn0).coff = coff ∧
    (start_track ch fd coff cn0).adr = 0 ∧
    (start_track ch fd coff cn0).cn0 = cn0 ∧
    (start_track ch fd coff cn0).trk.err_phas = 0 ∧
    (start_track ch fd coff cn0).trk.sec_sync = 0 ∧
    (start_track ch fd coff cn0).trk.sec_pol = 0 ∧
    (start_track ch fd coff cn0).trk.sumP = 0 ∧
    (start_track ch fd coff cn0).trk.sumE = 0 ∧
    (start_track ch fd coff cn0).trk.sumL = 0 ∧
    (start_track ch fd coff cn0).trk.sumN = 0 ∧
    (start_track ch fd coff cn0).trk.C =
      List.replicate ch.trk.C.length ((0, 0) : Cplx) ∧
    (start_track ch fd coff cn0).trk.P =
      List.replicate ch.trk.P.length ((0, 0) : Cplx) ∧
    (start_track ch fd coff cn0).trk.pos = ch.trk.pos ∧
    (start_track ch fd coff cn0).trk.code = ch.trk.code ∧
    (start_track ch fd coff cn0).nav.ssync = 0 ∧
    (start_track ch fd coff cn0).nav.fsync = 0 ∧
    (start_track ch fd coff cn0).nav.rev = 0 ∧
    (start_track ch fd coff cn0).nav.seq = 0 ∧
    (start_track ch fd coff cn0).nav.syms =
      List.replicate ch.nav.syms.length 0 ∧
    (start_track ch fd coff cn0).nav.tsyms =
      List.replicate ch.nav.tsyms.length 0 ∧
    (start_track ch fd coff cn0).nav.data = ch.nav.data ∧
    (start_track ch fd coff cn0).nav.count = ch.nav.count ∧
    (start_track ch fd coff cn0).nav.nerr = ch.nav.nerr ∧
    (start_track ch fd coff cn0).acq = ch.acq := by
  repeat' apply And.intro
  all_goals rfl

/-- C5: the lock-duration counter is 0 immediately after every SEARCH→LOCK
transition (`start_track`) and increases by exactly 1 on every
tracking-epoch update of a LOCKed channel. -/
theorem lock_counter_invariant (ext : Ext) (ch : Ch)
    (fd coff cn0 time : ℚ) (buff : List Cplx) (ix : ℤ)
    (hst : ch.state = ChState.LOCK) :
    (start_track ch fd coff cn0).lock = 0 ∧
    (track_sig ext ch time buff ix).lock = ch.lock + 1 := by
  refine ⟨rfl, ?_⟩
  obtain ⟨chN, hstate, hlost, hlock, heq⟩ :=
    track_sig_shape ext ch time buff ix
  rw [heq]
  split_ifs <;> simpa using hlock

/-- Witness for C5 at a concrete channel. -/
theorem lock_counter_invariant_witness :
    (start_track ch0 1 2 3).lock = 0 ∧
    (track_sig ext0 ch0 1 [] 0).lock = ch0.lock + 1 :=
  lock_counter_invariant ext0 ch0 1 2 3 1 [] 0 rfl

/-- C4: after a tracking-epoch update of a LOCKed channel, if the smoothed
C/N0 ends below the lost threshold (32 dB-Hz, strictly below the 35 dB-Hz
lock threshold — hysteresis) the channel state becomes IDLE and the
lost-signal counter grows by exactly 1; otherwise the state remains LOCK
and the lost counter is unchanged. -/
theorem signal_lost_transition (ext : Ext) (ch : Ch) (time : ℚ)
    (buff : List Cplx) (ix : ℤ) (hst : ch.state = ChState.LOCK) :
    THRES_CN0.2 < THRES_CN0.1 ∧
    ((track_sig ext ch time buff ix).cn0 < THRES_CN0.2 →
      (track_sig ext ch time buff ix).state = ChState.IDLE ∧
      (track_sig ext ch time buff ix).lost = ch.lost + 1) ∧
    (THRES_CN0.2 ≤ (track_sig ext ch time buff ix).cn0 →
      (track_sig ext ch time buff ix).state = ChState.LOCK ∧
      (track_sig ext ch time buff ix).lost = ch.lost) := by
  refine ⟨by norm_num [THRES_CN0], ?_, ?_⟩ <;>
  · obtain ⟨chN, hstate, hlost, hlock, heq⟩ :=
      track_sig_shape ext ch time buff ix
    rw [heq]
    split_ifs with hcn
    · intro h
      first
      | exact ⟨rfl, by simpa using hlost⟩
      | · exfalso
          simp only at h
          exact absurd hcn (not_lt.mpr h)
    · intro h
      first
      | exact absurd h (by simpa using hcn)
      | exact ⟨by rw [hstate, hst], by simpa using hlost⟩

/-- Witness for C4 at a concrete channel. -/
theorem signal_lost_transition_witness :
    THRES_CN0.2 < THRES_CN0.1 ∧
    ((track_sig ext0 ch0 1 [] 0).cn0 < THRES_CN0.2 →
      (track_sig ext0 ch0 1 [] 0).state = ChState.IDLE ∧
      (track_sig ext0 ch0 1 [] 0).lost = ch0.lost + 1) ∧
    (THRES_CN0.2 ≤ (track_sig ext0 ch0 1 [] 0).cn0 →
      (track_sig ext0 ch0 1 [] 0).state = ChState.LOCK ∧
      (track_sig ext0 ch0 1 [] 0).lost = ch0.lost) :=
  signal_lost_transition ext0 ch0 1 [] 0 rfl

/-- C10: the divisions inside the carrier discriminators and the C/N0 update
are guarded: the FLL leaves the Doppler estimate unchanged unless at least
two history samples exist (`lock >= 2`) and the dot product of the two most
recent prompt correlator values is nonzero; the PLL leaves the Doppler
estimate and the stored phase error unchanged unless the prompt in-phase
component is nonzero; and the C/N0 update leaves the smoothed C/N0 unchanged
unless the accumulated noise power is strictly positive — so each division
(`cross/dot`, `QP/IP`, `sumP/sumN`) happens only under its guard. -/
theorem discriminator_guards (ext : Ext) (ch : Ch) :
    ((ch.lock < 2 ∨
      (ch.trk.P.getD (ch.trk.P.length - 1) ((0, 0) : Cplx)).1 *
          (ch.trk.P.getD (ch.trk.P.length - 2) ((0, 0) : Cplx)).1 +
        (ch.trk.P.getD (ch.trk.P.length - 1) ((0, 0) : Cplx)).2 *
          (ch.trk.P.getD (ch.trk.P.length - 2) ((0, 0) : Cplx)).2 = 0) →
      (FLL ext ch).fd = ch.fd) ∧
    ((ch.trk.C.getD 0 ((0, 0) : Cplx)).1 = 0 →
      (PLL ext ch).fd = ch.fd ∧
      (PLL ext ch).trk.err_phas = ch.trk.err_phas) ∧
    (ch.trk.sumN + (ext.cabs (ch.trk.C.getD 3 ((0, 0) : Cplx))) ^ 2 ≤ 0 →
      (CN0 ext ch).cn0 = ch.cn0) := by
  refine ⟨?_, ?_, ?_⟩
  · intro h
    unfold FLL
    dsimp only
    by_cases h1 : 2 ≤ ch.lock
    · rw [if_pos h1]
      rcases h with h | h
      · omega
      · rw [if_neg (not_not_intro h)]
    · rw [if_neg h1]
  · intro h
    unfold PLL
    dsimp only
    rw [if_neg (by simpa using h)]
    exact ⟨rfl, rfl⟩
  · intro h
    unfold CN0
    dsimp only
    split_ifs with h1 h2
    · exact absurd h2 (not_lt.mpr h)
    · rfl
    · rfl

/-- Witness for C10 at a concrete channel with empty correlator history. -/
theorem discriminator_guards_witness :
    (FLL ext0 ch0).fd = ch0.fd ∧
    ((PLL ext0 ch0).fd = ch0.fd ∧
      (PLL ext0 ch0).trk.err_phas = ch0.trk.err_phas) ∧
    (CN0 ext0 ch0).cn0 = ch0.cn0 := by
  obtain ⟨h1, h2, h3⟩ := discriminator_guards ext0 ch0
  refine ⟨h1 (Or.inl (by norm_num [ch0])), h2 ?_, h3 ?_⟩
  · norm_num [ch0]
  · norm_num [ch0, ext0]

/-- C3: once the accumulated non-coherent integration reaches the acquisition
time (`n_sum·T ≥ T_ACQ` after this call's accumulation), the search decision
computes the coarse C/N0 of the accumulated surface as
`10·log10((P_max − P_mean)/P_mean/T)` (when the mean power is positive); at
or above the 35 dB-Hz lock threshold the channel enters LOCK with Doppler
refined by `fine_dop` (which is 3-point parabolic interpolation: the
`quadFit` coefficients below interpolate the three points around the peak,
and `fine_dop` returns the vertex `-b/(2a)` at interior peaks) and code
offset equal to the peak sample index divided by the sampling rate;
otherwise the channel goes IDLE; in both cases the power-sum accumulator and
its count are reset to zero. -/
theorem search_sig_decision (ext : Ext) (ch : Ch) (time : ℚ)
    (buff : List Cplx) (ix : ℤ) (P' : List (List ℚ))
    (r : ℚ × (Nat × Nat) × ℚ)
    (hst : ch.state = ChState.SRCH)
    (hP : P' = matAdd ch.acq.P_sum
      (search_code ext ch.acq.code_fft ch.T buff ix ch.fs ch.fi ch.acq.fds))
    (hr : r = corr_max ext P' ch.T)
    (hthr : T_ACQ ≤ ((ch.acq.n_sum + 1 : Nat) : ℚ) * ch.T) :
    ((search_sig ext ch time buff ix).acq.P_sum = matZero P' ∧
     (search_sig ext ch time buff ix).acq.n_sum = 0) ∧
    (0 < matMean P' →
      r.2.2 = 10 * ext.log10 ((r.1 - matMean P') / matMean P' / ch.T)) ∧
    (THRES_CN0.1 ≤ r.2.2 →
      (search_sig ext ch time buff ix).state = ChState.LOCK ∧
      (search_sig ext ch time buff ix).fd =
        fine_dop (matCol P' r.2.1.2) ch.acq.fds r.2.1.1 ∧
      (search_sig ext ch time buff ix).coff = (r.2.1.2 : ℚ) / ch.fs ∧
      (search_sig ext ch time buff ix).cn0 = r.2.2 ∧
      (search_sig ext ch time buff ix).lock = 0) ∧
    (r.2.2 < THRES_CN0.1 →
      (search_sig ext ch time buff ix).state = ChState.IDLE) ∧
    (∀ x0 x1 x2 y0 y1 y2 : ℚ, x0 ≠ x1 → x0 ≠ x2 → x1 ≠ x2 →
      (quadFitA x0 x1 x2 y0 y1 y2 * x0 ^ 2 + quadFitB x0 x1 x2 y0 y1 y2 * x0 +
        quadFitC x0 x1 x2 y0 y1 y2 = y0) ∧
      (quadFitA x0 x1 x2 y0 y1 y2 * x1 ^ 2 + quadFitB x0 x1 x2 y0 y1 y2 * x1 +
        quadFitC x0 x1 x2 y0 y1 y2 = y1) ∧
      (quadFitA x0 x1 x2 y0 y1 y2 * x2 ^ 2 + quadFitB x0 x1 x2 y0 y1 y2 * x2 +
        quadFitC x0 x1 x2 y0 y1 y2 = y2)) := by
  subst hP
  subst hr
  refine ⟨?_, ?_, ?_, ?_, ?_⟩
  · unfold search_sig
    dsimp only
    rw [if_pos hthr]
    split_ifs <;> exact ⟨rfl, rfl⟩
  · intro hmean
    unfold corr_max
    dsimp only
    rw [if_pos hmean]
  · intro hcn
    unfold search_sig
    dsimp only
    rw [if_pos hthr, if_pos hcn]
    exact ⟨rfl, rfl, rfl, rfl, rfl⟩
  · intro hcn
    unfold search_sig
    dsimp only
    rw [if_pos hthr, if_neg (not_le.mpr hcn)]
  · intro x0 x1 x2 y0 y1 y2 h01 h02 h12
    have d01 : x0 - x1 ≠ 0 := sub_ne_zero.mpr h01
    have d02 : x0 - x2 ≠ 0 := sub_ne_zero.mpr h02
    have d12 : x1 - x2 ≠ 0 := sub_ne_zero.mpr h12
    have d10 : x1 - x0 ≠ 0 := sub_ne_zero.mpr h01.symm
    have d20 : x2 - x0 ≠ 0 := sub_ne_zero.mpr h02.symm
    have d21 : x2 - x1 ≠ 0 := sub_ne_zero.mpr h12.symm
    refine ⟨?_, ?_, ?_⟩ <;>
    · unfold quadFitA quadFitB quadFitC
      field_simp
      ring

/-- A concrete searching channel used by the C3 witness. -/
def chS : Ch := { ch0 with state := ChState.SRCH }

/-- The accumulated power surface of the C3 witness call. -/
def Pacc0 : List (List ℚ) :=
  matAdd chS.acq.P_sum
    (search_code ext0 chS.acq.code_fft chS.T [] 0 chS.fs chS.fi chS.acq.fds)

/-- The `corr_max` result of the C3 witness call. -/
def cm0 : ℚ × (Nat × Nat) × ℚ := corr_max ext0 Pacc0 chS.T

/-- Witness for C3 at a concrete searching channel. -/
theorem search_sig_decision_witness :
    ((search_sig ext0 chS 1 [] 0).acq.P_sum = matZero Pacc0 ∧
     (search_sig ext0 chS 1 [] 0).acq.n_sum = 0) ∧
    (0 < matMean Pacc0 →
      cm0.2.2 = 10 * ext0.log10 ((cm0.1 - matMean Pacc0) / matMean Pacc0 /
        chS.T)) ∧
    (THRES_CN0.1 ≤ cm0.2.2 →
      (search_sig ext0 chS 1 [] 0).state = ChState.LOCK ∧
      (search_sig ext0 chS 1 [] 0).fd =
        fine_dop (matCol Pacc0 cm0.2.1.2) chS.acq.fds cm0.2.1.1 ∧
      (search_sig ext0 chS 1 [] 0).coff = (cm0.2.1.2 : ℚ) / chS.fs ∧
      (search_sig ext0 chS 1 [] 0).cn0 = cm0.2.2 ∧
      (search_sig ext0 chS 1 [] 0).lock = 0) ∧
    (cm0.2.2 < THRES_CN0.1 →
      (search_sig ext0 chS 1 [] 0).state = ChState.IDLE) ∧
    (∀ x0 x1 x2 y0 y1 y2 : ℚ, x0 ≠ x1 → x0 ≠ x2 → x1 ≠ x2 →
      (quadFitA x0 x1 x2 y0 y1 y2 * x0 ^ 2 + quadFitB x0 x1 x2 y0 y1 y2 * x0 +
        quadFitC x0 x1 x2 y0 y1 y2 = y0) ∧
      (quadFitA x0 x1 x2 y0 y1 y2 * x1 ^ 2 + quadFitB x0 x1 x2 y0 y1 y2 * x1 +
        quadFitC x0 x1 x2 y0 y1 y2 = y1) ∧
      (quadFitA x0 x1 x2 y0 y1 y2 * x2 ^ 2 + quadFitB x0 x1 x2 y0 y1 y2 * x2 +
        quadFitC x0 x1 x2 y0 y1 y2 = y2)) :=
  search_sig_decision ext0 chS 1 [] 0 Pacc0 cm0 rfl rfl rfl
    (by norm_num [T_ACQ, chS, ch0])

/-! ## Navigation frame decoding (`sdr_nav.py`, claims C7 and C2)

`decode_LNAV` is pure Python and fully embedded.  `decode_CNV2` calls
`sdr_ldpc.decode_LDPC` (a repository module not under `src/`, holding the
per-signal Tanner-graph tables) — the graphs are taken as parameters and the
decode itself is the embedded `decode_NB_LDPC`.  `decode_L6_frame` calls the
libfec RS decoder modelled above.  The CRC-24Q and bit-field primitives live
in the external geodesy library (`sdr_rtk`/librtk) and are modelled from the
spec. -/

/-- Modelled from the spec: `sdr_rtk.getbitu(data, pos, len)` — the unsigned
value of `len` bits starting at bit position `pos`, MSB-first, of a byte
buffer. -/
def getbitu (data : List Nat) (pos len : Nat) : Nat :=
  (List.range len).foldl
    (fun v i => 2 * v + (((data.getD ((pos + i) / 8) 0) >>> (7 - (pos + i) % 8)) &&& 1))
    0

/-- One byte step of CRC-24Q (generator 0x1864CFB). -/
def crc24qStep (crc byte : Nat) : Nat :=
  (List.range 8).foldl
    (fun c _ =>
      let c2 := c * 2
      if c2 &&& 0x1000000 ≠ 0 then c2 ^^^ 0x1864CFB else c2)
    (crc ^^^ (byte <<< 16))

/-- Modelled from the spec: `sdr_rtk.crc24q(data, len)` — the CRC-24Q
remainder of the first `len` bytes. -/
def crc24q (data : List Nat) (len : Nat) : Nat :=
  (List.range len).foldl (fun c i => crc24qStep c (data.getD i 0)) 0

/-- Embedding of `sdr_nav.test_CRC(bits)`: right-align the bits into bytes
and compare CRC-24Q over the data bytes against the trailing 24-bit field.
(`N = (len(bits)-24+7)//8*8` as in the source; the natural-number arithmetic
agrees with Python for the call sites, where `len(bits) >= 24`.) -/
def test_CRC (bits : List Nat) : Bool :=
  let N := (bits.length - 24 + 7) / 8 * 8
  let buff := pack_bits bits (N + 24 - bits.length)
  crc24q buff (N / 8) = getbitu buff N 24

/-- Embedding of `sdr_nav.test_LNAV_parity(syms)`: the ten 30-bit words with
the rolling two parity carry bits and the six parity mask checks of the GPS
LNAV subframe. -/
def test_LNAV_parity (syms : List Nat) : Bool :=
  let mask := [0x2EC7CD2, 0x1763E69, 0x2BB1F34, 0x15D8F9A, 0x1AEC7CD,
               0x22DEA27]
  ((List.range 10).foldl
    (fun (st : Nat × Bool) i =>
      let buff1 := (List.range 30).foldl
        (fun b j => (b <<< 1) ||| syms.getD (i * 30 + j) 0) st.1
      let buff2 := if buff1 &&& (1 <<< 30) ≠ 0 then buff1 ^^^ 0x3FFFFFC0
                   else buff1
      (buff2, st.2 && ((List.range 6).all fun j =>
        xor_bits ((buff2 >>> 6) &&& mask.getD j 0) =
          (buff2 >>> (5 - j)) &&& 1)))
    (0, true)).2

/-- Embedding of `sdr_nav.decode_LNAV(ch, syms, rev)`: on parity success
record the subframe, set frame sync and the TOW sequence, and count an OK
frame; on parity error clear `fsync`/`rev` and count an error.  (The log
output is dropped.) -/
def decode_LNAV (ch : Ch) (syms : List Nat) (rev : ℤ) : Ch :=
  let time := ch.time - 20e-3 * 308
  if test_LNAV_parity syms then
    let data := pack_bits syms
    { ch with nav := { ch.nav with
        fsync := ch.lock
        rev := rev
        seq := (getbitu data 30 17 : ℤ)
        data := ch.nav.data ++ [(time, data)]
        count := (ch.nav.count.1 + 1, ch.nav.count.2) } }
  else
    { ch with nav := { ch.nav with
        fsync := 0
        rev := 0
        count := (ch.nav.count.1, ch.nav.count.2 + 1) } }

/-- A Tanner-graph table of `sdr_ldpc.py` (`H_idx`, `H_ele`, `m`, `n`). -/
structure LdpcGraph where
  H_idx : List (List Nat)
  H_ele : List (List Nat)
  m : Nat
  n : Nat

/-- Modelled from the spec: `sdr_ldpc.decode_LDPC(type, syms)` dispatches on
the type string to a fixed Tanner-graph table (the `sdr_ldpc` module with
the tables is not under `src/`) and runs the NB-LDPC decoder; the graph is
taken as a parameter and the decoding is the embedded `decode_NB_LDPC`. -/
def decode_LDPC (g : LdpcGraph) (syms : List Nat) : List Nat × ℤ :=
  decode_NB_LDPC g.H_idx g.H_ele g.m g.n syms

/-- Embedding of the block de-interleave of `sdr_nav.decode_CNV2`:
`syms[52:].reshape(46, 38).T.ravel()`. -/
def deinterleave_CNV2 (syms : List Nat) : List Nat :=
  (List.range 1748).map fun k => syms.getD (52 + (k % 46) * 38 + k / 46) 0

/-- Embedding of `sdr_func.unpack_data(data, N)`: the `N` bits of a value,
MSB first (nonnegative values at the call sites). -/
def unpack_data (v : ℤ) (N : Nat) : List Nat :=
  (List.range N).map fun i => (v.toNat >>> (N - 1 - i)) &&& 1

/-- Embedding of `sdr_nav.decode_CNV2(ch, syms, rev, toi)`: de-interleave,
LDPC-decode subframes 2 and 3 (Tanner graphs `g2`, `g3`), then on double CRC
success record the frame, set symbol and frame sync, the TOI sequence and
the corrected-error count, and count an OK frame; on CRC failure clear
`ssync`/`fsync` and count an error. -/
def decode_CNV2 (g2 g3 : LdpcGraph) (ch : Ch) (syms : List Nat)
    (rev toi : ℤ) : Ch :=
  let time := ch.time - 18.52
  let syms_d := deinterleave_CNV2 syms
  let SF2 := decode_LDPC g2 (syms_d.take 1200)
  let SF3 := decode_LDPC g3 (syms_d.drop 1200)
  if test_CRC SF2.1 = true ∧ test_CRC SF3.1 = true then
    let bits := unpack_data toi 9 ++ SF2.1 ++ SF3.1
    { ch with nav := { ch.nav with
        ssync := ch.lock
        fsync := ch.lock
        rev := rev
        seq := toi
        nerr := SF2.2 + SF3.2
        data := ch.nav.data ++ [(time, pack_bits bits)]
        count := (ch.nav.count.1 + 1, ch.nav.count.2) } }
  else
    { ch with nav := { ch.nav with
        ssync := 0
        fsync := 0
        count := (ch.nav.count.1, ch.nav.count.2 + 1) } }

/-- The L6 preamble `[0x1A, 0xCF, 0xFC, 0x1D, prn]` of
`sdr_nav.decode_L6_frame`. -/
def l6_preamb (ch : Ch) : List Nat :=
  [0x1A, 0xCF, 0xFC, 0x1D, (Int.fmod ch.prn 256).toNat]

/-- The two preamble-difference match counts of `sdr_nav.decode_L6_frame`
(uint8 differences, i.e. mod 256). -/
def l6_nsync (ch : Ch) (syms : List Nat) : Nat :=
  let p := l6_preamb ch
  let s0 := syms.getD 0 0
  let p0 := p.getD 0 0
  let n1 := ((List.range 4).filter fun i =>
    (syms.getD (1 + i) 0 + 256 - s0 % 256) % 256 =
      (p.getD (1 + i) 0 + 256 - p0) % 256).length
  let n2 := ((List.range 5).filter fun i =>
    (syms.getD (syms.length - 5 + i) 0 + 256 - s0 % 256) % 256 =
      (p.getD i 0 + 256 - p0) % 256).length
  n1 + n2

/-- The restored 250 symbols of `sdr_nav.decode_L6_frame`
(`syms[:250] + (preamb[0] - syms[0])` in uint8 arithmetic). -/
def l6_restored (ch : Ch) (syms : List Nat) : List Nat :=
  (syms.take 250).map fun s =>
    ((s : ℤ) + 0x1A - (syms.getD 0 0 : ℤ)).emod 256 |>.toNat

/-- The 255-symbol RS buffer of `sdr_nav.decode_L6_frame`
(9 zero virtual-fill bytes and the 246 data+parity symbols). -/
def l6_buff (ch : Ch) (syms : List Nat) : List Nat :=
  List.replicate 9 0 ++ (l6_restored ch syms).drop 4

/-- Embedding of `sdr_nav.decode_L6_frame(ch, syms)`: check the two
preamble differences (fewer than 8 matches clears sync and returns), restore
the symbols, RS-decode, and either record the corrected frame (sync set,
vendor/facility sequence, OK count) or clear sync and count an error; the
RS corrected-symbol count (or -1) is stored in the channel-level `nerr`
field in both cases. -/
def decode_L6_frame (ch : Ch) (syms : List Nat) : Ch :=
  if l6_nsync ch syms < 8 then
    { ch with nav := { ch.nav with ssync := 0, fsync := 0 } }
  else
    let time := ch.time - 4e-3 * 255
    let rs := decode_rs (l6_buff ch syms)
    let ch := { ch with nerr := rs.2 }
    if 0 ≤ rs.2 then
      let data := (l6_restored ch syms).take 4 ++ rs.1.drop 9
      { ch with nav := { ch.nav with
          ssync := ch.lock
          fsync := ch.lock
          seq := (getbitu data 40 5 : ℤ)
          data := ch.nav.data ++ [(time, data)]
          count := (ch.nav.count.1 + 1, ch.nav.count.2) } }
    else
      { ch with nav := { ch.nav with
          ssync := 0
          fsync := 0
          count := (ch.nav.count.1, ch.nav.count.2 + 1) } }

/-- C7: a frame validation failure is never fatal and never escapes the
decode routine (the embedding is a total function): an LNAV parity error
only clears `fsync` and `rev` and counts one error; a CNV2 double-CRC
failure only clears `ssync` and `fsync` and counts one error; an L6
Reed-Solomon failure only clears `ssync` and `fsync`, counts one error and
records the failed correction count in the channel-level `nerr` scratch
field.  In each case the equations show the channel state tag, the whole
tracking state (Doppler, code offset, accumulated phase, correlator history,
loop-filter memory), the lock counter and every other navigation field are
unchanged. -/
theorem decode_failure_frame (g2 g3 : LdpcGraph) (ch : Ch)
    (symsA symsB symsC : List Nat) (rev toi : ℤ) :
    (test_LNAV_parity symsA = false →
      decode_LNAV ch symsA rev =
        { ch with nav := { ch.nav with
            fsync := 0
            rev := 0
            count := (ch.nav.count.1, ch.nav.count.2 + 1) } }) ∧
    (¬(test_CRC (decode_LDPC g2 ((deinterleave_CNV2 symsB).take 1200)).1 =
          true ∧
       test_CRC (decode_LDPC g3 ((deinterleave_CNV2 symsB).drop 1200)).1 =
          true) →
      decode_CNV2 g2 g3 ch symsB rev toi =
        { ch with nav := { ch.nav with
            ssync := 0
            fsync := 0
            count := (ch.nav.count.1, ch.nav.count.2 + 1) } }) ∧
    (¬(l6_nsync ch symsC < 8) → (decode_rs (l6_buff ch symsC)).2 < 0 →
      decode_L6_frame ch symsC =
        { ch with
            nerr := (decode_rs (l6_buff ch symsC)).2
            nav := { ch.nav with
              ssync := 0
              fsync := 0
              count := (ch.nav.count.1, ch.nav.count.2 + 1) } }) := by
  refine ⟨?_, ?_, ?_⟩
  · intro hA
    unfold decode_LNAV
    rw [if_neg (by simp [hA])]
  · intro hB
    unfold decode_CNV2
    dsimp only
    rw [if_neg hB]
  · intro hCs hCrs
    unfold decode_L6_frame
    dsimp only
    rw [if_neg hCs, if_neg (not_le.mpr hCrs)]

/-- The LNAV parity-failure branch is reachable: the all-ones subframe fails
the parity test. -/
theorem test_LNAV_parity_all_ones :
    test_LNAV_parity (List.replicate 300 1) = false := by decide

/-- C2 counterexample: the reset performed on re-entering tracking
(`start_track`, which runs `trk_init` and `nav_init`) does not restore the
navigation sub-state to its freshly-created value: after one failed LNAV
frame the error counter `nav.count` is (0, 1), and it still is (0, 1) after
the reset, while a newly created channel's is (0, 0). -/
theorem start_track_reset_counterexample :
    (decode_LNAV ch0 (List.replicate 300 1) 0).nav.count = (0, 1) ∧
    (start_track (decode_LNAV ch0 (List.replicate 300 1) 0) 0 0 0).nav.count =
      (0, 1) ∧
    (nav_new "").count = (0, 0) ∧
    (start_track (decode_LNAV ch0 (List.replicate 300 1) 0) 0 0 0).nav.count ≠
      (nav_new "").count := by
  refine ⟨?_, ?_, rfl, ?_⟩ <;> decide

end PocketSDR
